import Mathlib

/-!
Verification of the polling worker / metric-lifecycle engine of a
SQL-to-metrics exporter.  The definitions below are a shallow embedding of
the Go sources:

* `QueryResult.registerMetric`, `setValueForResult`, `QueryResult.SetMetrics`,
  `QueryResult.RegisterMetrics` (metrics file),
* `Worker.SetMetrics` (worker file).

Go maps are represented by association lists with unique keys
(`insertAL` keeps the unique-key invariant); the Prometheus registry is
abstracted, per the spec's external contract, as the set of series keys
whose gauge handles are currently registered (`RegState.published`).
Floating point numbers are represented by exact rationals.
-/

deriving instance DecidableEq for Except

namespace PromSql

/-- A scalar value of a result-set cell (Go `interface%x7b%x7d` restricted to the
scalar types the program manipulates: strings, integers, floats, and
booleans as a representative of types unhandled by `setValueForResult`). -/
inductive Val where
  | vstr (s : String)
  | vint (n : Int)
  | vfloat (q : Rat)
  | vbool (b : Bool)
deriving DecidableEq, Repr

/-- Decimal digit character for `n < 10`. -/
def digitChar (n : Nat) : Char := Char.ofNat (48 + n)

/-- Fuel-driven decimal printer for naturals (most significant digit first). -/
def natDigitsFuel : Nat → Nat → List Char
  | 0, _ => []
  | fuel + 1, n =>
    if n < 10 then [digitChar n]
    else natDigitsFuel fuel (n / 10) ++ [digitChar (n % 10)]

/-- Decimal digit string of a natural number, as Go prints integers. -/
def natDigits (n : Nat) : List Char := natDigitsFuel (n + 1) n

/-- Decimal printing of an integer, as Go prints integers (`%d`). -/
def intChars (n : Int) : List Char :=
  if n < 0 then '-' :: natDigits n.natAbs else natDigits n.natAbs

/-- Numeric value of a decimal digit string (verification helper). -/
def digitsVal (ds : List Char) : Nat :=
  ds.foldl (fun a c => a * 10 + (c.toNat - 48)) 0

/-- Smallest exponent `k ≤ 1200` with `den ∣ 10 ^ k`; every IEEE float64 has a
denominator `2 ^ a` with `a ≤ 1074`, so the bound covers all Go floats. -/
def findDecExp (den : Nat) : Option Nat :=
  (List.range 1201).find? (fun k => 10 ^ k % den == 0)

/-- Left-pad a digit string with zeros so that at least `k + 1` digits are
available (one integral digit plus `k` fractional digits). -/
def padDigits (k : Nat) (ds : List Char) : List Char :=
  if ds.length ≤ k then List.replicate (k + 1 - ds.length) '0' ++ ds else ds

/-- The scaled integral digits of `q` for the exponent `k`. -/
def scaledDigits (q : Rat) (k : Nat) : List Char :=
  padDigits k (natDigits (q.num.natAbs * (10 ^ k / q.den)))

/-- Decimal rendering of a nonnegative rational, mirroring how Go renders a
float64 in JSON / `%v` on the fixed-notation range: an integral value prints
with no fractional part (`1.0` prints as `1`), otherwise the exact decimal
expansion with a minimal number of fractional digits (`12.5` prints as
`12.5`).  Go's switch to scientific notation for very large or very small
magnitudes is not modelled; rationals with no finite decimal expansion
(unreachable from parsed floats) fall back to a `num/den` rendering. -/
def decChars (q : Rat) : List Char :=
  match findDecExp q.den with
  | some k =>
    if k = 0 then natDigits (q.num.natAbs * (10 ^ k / q.den))
    else
      (scaledDigits q k).take ((scaledDigits q k).length - k) ++
        '.' :: (scaledDigits q k).drop ((scaledDigits q k).length - k)
  | none => natDigits q.num.natAbs ++ '/' :: natDigits q.den

/-- Go rendering of a float64 value (sign plus `decChars`). -/
def encodeFloatChars (q : Rat) : List Char :=
  if q < 0 then '-' :: decChars (-q) else decChars q

/-- Lower-case hexadecimal digit for `n < 16`. -/
def hexDigitChar (n : Nat) : Char :=
  if n < 10 then digitChar n else Char.ofNat (87 + n)

/-- Per-character JSON escaping as performed by Go `encoding/json` when
marshalling a string (with the default HTML escaping used by
`json.Marshal`). -/
def escChar (c : Char) : List Char :=
  if c = '"' then ['\\', '"']
  else if c = '\\' then ['\\', '\\']
  else if c = '\n' then ['\\', 'n']
  else if c = '\r' then ['\\', 'r']
  else if c = '\t' then ['\\', 't']
  else if c = '<' ∨ c = '>' ∨ c = '&' ∨ c.toNat < 32 then
    ['\\', 'u', '0', '0', hexDigitChar (c.toNat / 16), hexDigitChar (c.toNat % 16)]
  else if c.toNat = 8232 ∨ c.toNat = 8233 then
    ['\\', 'u', '2', '0', '2', hexDigitChar (c.toNat % 16)]
  else [c]

/-- JSON string literal for `s` (Go `encoding/json` string marshalling). -/
def escString (s : String) : List Char :=
  '"' :: (s.data.flatMap escChar) ++ ['"']

/-- JSON encoding of one scalar value, as Go `encoding/json` marshals the
corresponding `interface%x7b%x7d` value. -/
def encodeVal : Val → List Char
  | .vstr s => escString s
  | .vint n => intChars n
  | .vfloat q => encodeFloatChars q
  | .vbool b => if b then ['t', 'r', 'u', 'e'] else ['f', 'a', 'l', 's', 'e']

/-- `strings.ToLower` in the model: per-character ASCII lower-casing over
the character list (Go's full Unicode case mapping agrees on the ASCII
range the program's claims exercise). -/
def strToLower (s : String) : String := String.mk (s.data.map Char.toLower)

/-- First-match association-list lookup (Go map read). -/
def lookupAL {β : Type} : List (String × β) → String → Option β
  | [], _ => none
  | (k, v) :: rest, key => if k = key then some v else lookupAL rest key

/-- Go map write `m[key] = v`: replaces any existing binding.  The binding is
appended, keeping keys unique. -/
def insertAL {β : Type} (l : List (String × β)) (key : String) (v : β) : List (String × β) :=
  l.filter (fun p => !(p.1 == key)) ++ [(key, v)]

/-- Keep the first binding of every key (canonical map representative of an
association list). -/
def dedupKeysAL {β : Type} : List (String × β) → List (String × β)
  | [] => []
  | (k, v) :: rest => (k, v) :: (dedupKeysAL rest).filter (fun p => !(p.1 == k))

/-- Sort facet entries by key, as Go `json.Marshal` sorts map keys. -/
def canonFacet (f : List (String × Val)) : List (String × Val) :=
  List.insertionSort (fun a b => a.1 ≤ b.1) f

instance facetKeyLeTotal : IsTotal (String × Val) (fun a b => a.1 ≤ b.1) :=
  ⟨fun a b => le_total a.1 b.1⟩

instance facetKeyLeTrans : IsTrans (String × Val) (fun a b => a.1 ≤ b.1) :=
  ⟨fun _ _ _ h1 h2 => le_trans h1 h2⟩

/-- Comma-joined concatenation (JSON object member list). -/
def joinComma : List (List Char) → List Char
  | [] => []
  | [x] => x
  | x :: xs => x ++ ',' :: joinComma xs

/-- One `"key":value` JSON object member. -/
def entryChars (p : String × Val) : List Char :=
  escString p.1 ++ ':' :: encodeVal p.2

/-- Go `json.Marshal` of the facet map: members sorted by key, keys escaped as
JSON strings, values marshalled by `encodeVal`. -/
def encodeFacetChars (f : List (String × Val)) : List Char :=
  '\x7b' :: joinComma ((canonFacet (dedupKeysAL f)).map entryChars) ++ ['\x7d']

/-- The fields of the `Query` descriptor that the metric-lifecycle engine
reads (config loading is out of scope). -/
structure Query where
  Name : String
  DataField : String
  SubMetrics : List (String × String)
deriving DecidableEq, Repr

/-- A Prometheus gauge handle: creation parameters plus current value
(the export primitive's contract is create / set / unregister). -/
structure Gauge where
  name : String
  help : String
  constLabels : List (String × String)
  value : Rat
deriving DecidableEq, Repr

/-- `registered` / `unregistered` status returned by `registerMetric`. -/
inductive MetricStatus where
  | registered
  | unregistered
deriving DecidableEq, Repr

/-- State of one query's metric registry: `result` is `QueryResult.Result`
(series key → gauge handle); `published` abstracts the global Prometheus
registry as the list of series keys whose handle is currently registered. -/
structure RegState where
  result : List (String × Gauge)
  published : List String
deriving DecidableEq, Repr

/-- `fmt.Sprintf("%v", v)` on the scalar values of the model. -/
def renderVal : Val → String
  | .vstr s => s
  | .vint n => String.mk (intChars n)
  | .vfloat q => String.mk (encodeFloatChars q)
  | .vbool b => if b then "true" else "false"

/-- Base metric name: query name, suffixed by `_suffix` when nonempty. -/
def metricNameOf (q : Query) (suffix : String) : String :=
  if suffix = "" then q.Name else q.Name ++ "_" ++ suffix

/-- The series key (`resultKey`): base metric name concatenated with the JSON
encoding of the facet map. -/
def resultKeyOf (q : Query) (facets : List (String × Val)) (suffix : String) : String :=
  metricNameOf q suffix ++ String.mk (encodeFacetChars facets)

/-- Constant labels attached to a new gauge: facet keys mapped to the
lower-cased `%v` rendering of the facet values (order-canonical form of the
Go label map). -/
def labelsOf (facets : List (String × Val)) : List (String × String) :=
  (canonFacet (dedupKeysAL facets)).map (fun p => (p.1, strToLower (renderVal p.2)))

/-- `QueryResult.registerMetric`: compute the series key; if an entry already
exists, reuse it and report `registered`; otherwise create a fresh gauge
(initial value 0) with name `query_result_<metricName>` and report
`unregistered`. -/
def registerMetric (q : Query) (st : RegState) (facets : List (String × Val)) (suffix : String) :
    RegState × String × MetricStatus :=
  let resultKey := resultKeyOf q facets suffix
  match lookupAL st.result resultKey with
  | some _ => (st, resultKey, .registered)
  | none =>
    ({ st with
        result := st.result ++ [(resultKey,
          { name := "query_result_" ++ metricNameOf q suffix,
            help := "Result of an SQL query",
            constLabels := labelsOf facets,
            value := 0 })] },
      resultKey, .unregistered)

/-- `strconv.ParseFloat(s, 64)` in the model: optional sign, decimal digits
with optional fractional part, optional decimal exponent; the result is the
exactly-represented rational.  (Binary rounding, `Inf` / `NaN` forms and hex
floats of the Go library function are not modelled.) -/
def parseFloat (s : String) : Option Rat :=
  let cs := s.data
  let p1 : Bool × List Char :=
    match cs with
    | '-' :: t => (true, t)
    | '+' :: t => (false, t)
    | _ => (false, cs)
  let ip := p1.2.takeWhile Char.isDigit
  let cs2 := p1.2.dropWhile Char.isDigit
  let p2 : List Char × List Char :=
    match cs2 with
    | '.' :: t => (t.takeWhile Char.isDigit, t.dropWhile Char.isDigit)
    | _ => ([], cs2)
  if ip.isEmpty && p2.1.isEmpty then none
  else
    let digitsToNat : List Char → Nat := fun ds => ds.foldl (fun a c => a * 10 + (c.toNat - 48)) 0
    let base : Rat := (digitsToNat ip : Rat) + (digitsToNat p2.1 : Rat) / (10 : Rat) ^ p2.1.length
    let withExp : Option Rat :=
      match p2.2 with
      | [] => some base
      | e :: t =>
        if e = 'e' ∨ e = 'E' then
          let p3 : Bool × List Char :=
            match t with
            | '-' :: u => (true, u)
            | '+' :: u => (false, u)
            | _ => (false, t)
          let ed := p3.2.takeWhile Char.isDigit
          if ed.isEmpty ∨ p3.2.dropWhile Char.isDigit ≠ [] then none
          else
            let ex : Int := if p3.1 then -(digitsToNat ed : Int) else (digitsToNat ed : Int)
            some (base * (10 : Rat) ^ ex)
        else none
    withExp.map (fun m => if p1.1 then -m else m)

/-- `setValueForResult`: coerce the scalar to the float the gauge is set to.
Strings are parsed by `parseFloat` (failure is an error), integers and
floats pass through, any other type is an `Unhandled type` error.  The model
returns the value to set instead of mutating the gauge in place. -/
def setValueForResult : Val → Except String Rat
  | .vstr t =>
    match parseFloat t with
    | some f => .ok f
    | none => .error ("strconv.ParseFloat: parsing " ++ String.mk (escString t) ++ ": invalid syntax")
  | .vint n => .ok (n : Rat)
  | .vfloat q => .ok q
  | .vbool b => .error ("Unhandled type %!s(bool=" ++ (if b then "true" else "false") ++ ")")

/-- One result row: column name → scalar value (unique keys, Go map). -/
abbrev Record := List (String × Val)

/-- A record set returned by one fetch. -/
abbrev Records := List Record

/-- The inner column loop of `QueryResult.SetMetrics` for one
(row, sub-metric) pair: `rowLen` is `len(row)`; a column goes to the facet
when the row has more than one column and its lower-cased name differs from
the target data field (unless it names some sub-metric value column, in
which case it is skipped); otherwise it is the gauge datum, and a second
such column is the multi-column error.  An exhausted row without a datum is
the not-found error. -/
def scanRowAux (rowLen : Nat) (df : String) (subvals : List String) :
    List (String × Val) → List (String × Val) → Option Val →
    Except String (List (String × Val) × Val)
  | [], _, none => .error "Data field not found in result set"
  | [], facet, some v => .ok (facet, v)
  | (k, v) :: rest, facet, acc =>
    if 1 < rowLen ∧ ¬strToLower k = df then
      if subvals.contains (strToLower k) then
        scanRowAux rowLen df subvals rest facet acc
      else
        scanRowAux rowLen df subvals rest (insertAL facet (strToLower k) v) acc
    else
      match acc with
      | some _ => .error "Data field not specified for multi-column query"
      | none => scanRowAux rowLen df subvals rest facet (some v)

/-- Scan one row for one sub-metric: returns the facet map and the datum. -/
def scanRow (row : Record) (df : String) (subvals : List String) :
    Except String (List (String × Val) × Val) :=
  scanRowAux row.length df subvals row [] none

/-- Number of columns of `row` that the scan routes to the value branch
(the code's value-column condition: not (more than one column and a
lower-cased name different from the target data field)). -/
def valueColCount (row : Record) (df : String) : Nat :=
  row.countP (fun p => !(decide (1 < row.length) && !(strToLower p.1 == df)))

/-- `st1` keeps every series of `st`: same published set, and every
registered key still maps to a handle with the same name, help and constant
labels (only the value may differ). -/
def preservesHandles (st st1 : RegState) : Prop :=
  st1.published = st.published ∧
  ∀ key g, lookupAL st.result key = some g →
    ∃ g1, lookupAL st1.result key = some g1 ∧ g1.name = g.name ∧ g1.help = g.help ∧
      g1.constLabels = g.constLabels

/-- Write `x` into the gauge registered under `key` (Go mutates the gauge
handle returned by `r.Result[key]`). -/
def setGauge (st : RegState) (key : String) (x : Rat) : RegState :=
  { st with
      result := st.result.map (fun p => if p.1 == key then (p.1, { p.2 with value := x }) else p) }

/-- Steps 4–8 of `QueryResult.SetMetrics` for one (row, sub-metric) pair:
scan the row, register the metric, coerce and set the value.  On error the
(possibly partially mutated) state is returned alongside the error. -/
def processPair (q : Query) (st : RegState) (row : Record) (suffix df : String)
    (subvals : List String) : RegState × Except String (String × MetricStatus) :=
  match scanRow row df subvals with
  | .error e => (st, .error e)
  | .ok fv =>
    let r := registerMetric q st fv.1 suffix
    match setValueForResult fv.2 with
    | .error e => (r.1, .error e)
    | .ok x => (setGauge r.1 r.2.1 x, .ok (r.2.1, r.2.2))

/-- Status map accumulated by `SetMetrics` (`facetsWithResult`). -/
abbrev FW := List (String × MetricStatus)

/-- Loop of `SetMetrics` over the sub-metric map for one row. -/
def processSubs (q : Query) (subvals : List String) (row : Record) :
    List (String × String) → RegState → FW → RegState × Except String FW
  | [], st, fw => (st, .ok fw)
  | (suffix, df) :: rest, st, fw =>
    match processPair q st row suffix df subvals with
    | (st1, .error e) => (st1, .error e)
    | (st1, .ok ks) => processSubs q subvals row rest st1 (insertAL fw ks.1 ks.2)

/-- Loop of `SetMetrics` over the record set. -/
def processRows (q : Query) (subm : List (String × String)) (subvals : List String) :
    Records → RegState → FW → RegState × Except String FW
  | [], st, fw => (st, .ok fw)
  | row :: rest, st, fw =>
    match processSubs q subvals row subm st fw with
    | (st1, .error e) => (st1, .error e)
    | (st1, .ok fw1) => processRows q subm subvals rest st1 fw1

/-- The effective sub-metric map: `SubMetrics` when nonempty, else the single
empty-suffix entry targeting `DataField`. -/
def effectiveSubmetrics (q : Query) : List (String × String) :=
  if q.SubMetrics.isEmpty then [("", q.DataField)] else q.SubMetrics

/-- `QueryResult.SetMetrics`: validation (multi-row bare value; `DataField`
versus `SubMetrics` exclusivity), then the row loop.  Returns the final
(possibly partially mutated) state and either the seen-status map or the
first error. -/
def SetMetrics (q : Query) (st : RegState) (recs : Records) : RegState × Except String FW :=
  if 1 < recs.length ∧ (recs.headD []).length = 1 then
    (st, .error "There is more than one row in the query result - with a single column")
  else if ¬q.DataField = "" ∧ ¬q.SubMetrics.isEmpty then
    (st, .error "sub-metrics are not compatible with data-field")
  else
    processRows q (effectiveSubmetrics q) ((effectiveSubmetrics q).map Prod.snd) recs st []

/-- `QueryResult.RegisterMetrics`: every registry entry whose key is absent
from the seen map is unregistered from Prometheus and dropped from the
registry; every entry seen with `unregistered` status is registered
(`MustRegister` runs deferred, hence the reversed append order). -/
def RegisterMetrics (st : RegState) (fw : FW) : RegState :=
  { result := st.result.filter (fun p => (lookupAL fw p.1).isSome),
    published :=
      st.published.filter
        (fun k => !((lookupAL st.result k).isSome && (lookupAL fw k).isNone))
      ++ ((st.result.filter
            (fun p => lookupAL fw p.1 == some MetricStatus.unregistered)).map Prod.fst).reverse }

/-- `Worker.SetMetrics`: apply the record set; on success run the
register/evict pass, on error keep the partially mutated registry and skip
the pass (the error is only logged). -/
def WorkerSetMetrics (q : Query) (st : RegState) (recs : Records) : RegState :=
  match SetMetrics q st recs with
  | (st1, .error _) => st1
  | (st1, .ok fw) => RegisterMetrics st1 fw

/-! ### Decoding helpers used to reason about the injectivity of the
Go JSON encoding (verification artifacts, not part of the program). -/

/-- Value of a lower-case hexadecimal digit. -/
def hexVal (c : Char) : Nat :=
  if c.toNat ≤ 57 then c.toNat - 48 else c.toNat - 87

/-- Inverse of `escChar`: decode one (possibly escaped) character from the
front of a JSON string-literal body. -/
def decodeOneChar : List Char → Option (Char × List Char)
  | '\\' :: 'u' :: h1 :: h2 :: h3 :: h4 :: rest =>
    some (Char.ofNat (hexVal h1 * 4096 + hexVal h2 * 256 + hexVal h3 * 16 + hexVal h4), rest)
  | '\\' :: '"' :: rest => some ('"', rest)
  | '\\' :: '\\' :: rest => some ('\\', rest)
  | '\\' :: 'n' :: rest => some ('\n', rest)
  | '\\' :: 'r' :: rest => some ('\r', rest)
  | '\\' :: 't' :: rest => some ('\t', rest)
  | '"' :: _ => none
  | c :: rest => some (c, rest)
  | [] => none

/-- Fueled decoder of a JSON string-literal body up to the closing quote:
returns the decoded characters and the input after the quote. -/
def decodeStrBody : Nat → List Char → Option (List Char × List Char)
  | 0, _ => none
  | fuel + 1, cs =>
    match cs with
    | '"' :: rest => some ([], rest)
    | _ =>
      match decodeOneChar cs with
      | none => none
      | some (c, rest) =>
        match decodeStrBody fuel rest with
        | none => none
        | some (s, r2) => some (c :: s, r2)

/-- `true` iff the value is not an integer (JSON decoding never produces Go
`int` values, and integers share their JSON rendering with the numerically
equal float). -/
def noIntVal : Val → Bool
  | .vint _ => false
  | _ => true

/-- The column loop of `scanRow` split off without the end-of-row check:
returns the facet and datum accumulators after the listed columns, or the
multi-column error raised inside the loop. -/
def scanPartial (rowLen : Nat) (df : String) (subvals : List String) :
    List (String × Val) → List (String × Val) → Option Val →
    Except String (List (String × Val) × Option Val)
  | [], facet, acc => .ok (facet, acc)
  | (k, v) :: rest, facet, acc =>
    if 1 < rowLen ∧ ¬strToLower k = df then
      if subvals.contains (strToLower k) then
        scanPartial rowLen df subvals rest facet acc
      else
        scanPartial rowLen df subvals rest (insertAL facet (strToLower k) v) acc
    else
      match acc with
      | some _ => .error "Data field not specified for multi-column query"
      | none => scanPartial rowLen df subvals rest facet (some v)

/-! ### The action sequence of one apply round

A successful `SetMetrics` round is equivalent to first computing, purely
from the query and the record set, the list of (series key, fresh gauge
spec, coerced value) actions, and then running those actions against the
registry state.  This factoring is proved below and drives the idempotence
proof. -/

/-- One successful (row, sub-metric) action: the series key, the gauge that
would be created were the key absent, and the coerced value to set. -/
structure Act where
  key : String
  gauge : Gauge
  value : Rat
deriving DecidableEq, Repr

/-- The action of one (row, sub-metric) pair, or its error. -/
def pairCompute (q : Query) (row : Record) (suffix df : String) (subvals : List String) :
    Except String Act :=
  match scanRow row df subvals with
  | .error e => .error e
  | .ok fv =>
    match setValueForResult fv.2 with
    | .error e => .error e
    | .ok x => .ok ⟨resultKeyOf q fv.1 suffix,
        { name := "query_result_" ++ metricNameOf q suffix,
          help := "Result of an SQL query",
          constLabels := labelsOf fv.1, value := 0 }, x⟩

/-- The actions of one row across the sub-metric map. -/
def subsCompute (q : Query) (subvals : List String) (row : Record) :
    List (String × String) → Except String (List Act)
  | [] => .ok []
  | (suffix, df) :: rest =>
    match pairCompute q row suffix df subvals with
    | .error e => .error e
    | .ok a => (subsCompute q subvals row rest).map (fun as1 => a :: as1)

/-- The actions of a whole record set. -/
def rowsCompute (q : Query) (subm : List (String × String)) (subvals : List String) :
    Records → Except String (List Act)
  | [] => .ok []
  | row :: rest =>
    match subsCompute q subvals row subm with
    | .error e => .error e
    | .ok as1 => (rowsCompute q subm subvals rest).map (fun as2 => as1 ++ as2)

/-- Run one action: reuse the handle when the key is present (status
`registered`), otherwise create it (status `unregistered`); then set the
value. -/
def runAct (st : RegState) (a : Act) : RegState × MetricStatus :=
  if (lookupAL st.result a.key).isSome then (setGauge st a.key a.value, .registered)
  else (setGauge { st with result := st.result ++ [(a.key, a.gauge)] } a.key a.value,
    .unregistered)

/-- Run a list of actions, accumulating the seen-status map. -/
def runActs : RegState → FW → List Act → RegState × FW
  | st, fw, [] => (st, fw)
  | st, fw, a :: rest => runActs (runAct st a).1 (insertAL fw a.key (runAct st a).2) rest

/-- The value of the last action writing key `k`, if any. -/
def lastWriteVal (as1 : List Act) (k : String) : Option Rat :=
  as1.foldl (fun acc a => if a.key == k then some a.value else acc) none

/-- Apply only the value writes of the actions (the no-creation case). -/
def applyWrites (st : RegState) (as1 : List Act) : RegState :=
  as1.foldl (fun s a => setGauge s a.key a.value) st

/-- The seen-status map when every action reuses an existing handle. -/
def regAll (fw : FW) (as1 : List Act) : FW :=
  as1.foldl (fun f a => insertAL f a.key .registered) fw

/-! ### Concrete example inputs used to instantiate the theorems -/

/-- Example query: name `q`, data field `count`, no sub-metrics. -/
def exQuery : Query := { Name := "q", DataField := "count", SubMetrics := [] }

/-- The empty registry state. -/
def exEmpty : RegState := { result := [], published := [] }

/-- Round-one record set: facets `region=a` and `region=b`. -/
def exRecsAB : Records :=
  [[("region", .vstr "a"), ("count", .vint 1)],
   [("region", .vstr "b"), ("count", .vint 1)]]

/-- Round-two record set: facet `region=a` only, with a new value. -/
def exRecsA : Records := [[("region", .vstr "a"), ("count", .vint 2)]]

/-- Series key of the `region=a` facet for `exQuery`. -/
def exKeyA : String := resultKeyOf exQuery [("region", .vstr "a")] ""

/-- Series key of the `region=b` facet for `exQuery`. -/
def exKeyB : String := resultKeyOf exQuery [("region", .vstr "b")] ""

/-- A facet map obtained by inserting the listed pairs, in order, into an
initially empty Go map. -/
def buildFacet (ps : List (String × Val)) : List (String × Val) :=
  ps.foldl (fun acc p => insertAL acc p.1 p.2) []

/-- Two facet maps that agree at every key except `lc`, where they hold the
string values `s1` and `s2` respectively. -/
def facetRel (lc s1 s2 : String) (f1 f2 : List (String × Val)) : Prop :=
  lookupAL f1 lc = some (Val.vstr s1) ∧ lookupAL f2 lc = some (Val.vstr s2) ∧
  ∀ k, ¬k = lc → lookupAL f1 k = lookupAL f2 k

/-- Two-row record set whose rows differ only in the letter case of the
`region` facet value (`A` versus `a`). -/
def exRecsCase : Records :=
  [[("region", Val.vstr "A"), ("count", Val.vfloat 2)],
   [("region", Val.vstr "a"), ("count", Val.vfloat 2)]]

/-- The apply round on `exRecsCase` from an empty registry. -/
def exCaseRun : RegState × Except String FW :=
  SetMetrics exQuery { result := [], published := [] } exRecsCase

/-- Final registry state of the `exRecsCase` round. -/
def exCaseSt : RegState := exCaseRun.1

/-- Seen-status map of the `exRecsCase` round. -/
def exCaseFw : FW :=
  match exCaseRun.2 with
  | .ok fw => fw
  | .error _ => []

/-! ### Association-list lemmas -/

theorem lookupAL_eq_none {β : Type} (l : List (String × β)) (key : String) :
    lookupAL l key = none ↔ ∀ p ∈ l, p.1 ≠ key := by
  induction l with
  | nil => simp [lookupAL]
  | cons p rest ih =>
    obtain ⟨k, v⟩ := p
    simp only [lookupAL]
    by_cases hk : k = key
    · simp [hk]
    · simp [hk, ih]

theorem lookupAL_append {β : Type} (l1 l2 : List (String × β)) (key : String) :
    lookupAL (l1 ++ l2) key =
      match lookupAL l1 key with
      | some v => some v
      | none => lookupAL l2 key := by
  induction l1 with
  | nil => simp [lookupAL]
  | cons p rest ih =>
    obtain ⟨k, v⟩ := p
    by_cases hk : k = key
    · simp [lookupAL, hk]
    · simp [lookupAL, hk, ih]

theorem lookupAL_mem {β : Type} (l : List (String × β)) (key : String) (v : β)
    (h : lookupAL l key = some v) : (key, v) ∈ l := by
  induction l with
  | nil => simp [lookupAL] at h
  | cons p rest ih =>
    obtain ⟨k, w⟩ := p
    simp only [lookupAL] at h
    by_cases hk : k = key
    · rw [if_pos hk] at h
      cases h
      subst hk
      exact List.mem_cons_self _ _
    · rw [if_neg hk] at h
      exact List.mem_cons_of_mem _ (ih h)

theorem lookupAL_filter_key {β : Type} (l : List (String × β)) (pr : String → Bool) (key : String) :
    lookupAL (l.filter (fun p => pr p.1)) key =
      if pr key then lookupAL l key else none := by
  induction l with
  | nil => simp [lookupAL]
  | cons p rest ih =>
    obtain ⟨k, v⟩ := p
    by_cases hpk : pr k
    · by_cases hk : k = key
      · subst hk
        simp [List.filter, lookupAL, hpk, ih]
      · simp [List.filter, lookupAL, hpk, hk, ih]
    · by_cases hk : k = key
      · subst hk
        simp only [List.filter, hpk]
        simp only [Bool.false_eq_true, if_false] at *
        rw [ih, if_neg]
        simp [hpk]
      · simp only [List.filter, hpk]
        rw [ih]
        rcases h2 : pr key with _ | _ <;> simp [h2, lookupAL, hk]

theorem lookupAL_map_value {β γ : Type} (l : List (String × β)) (f : String → β → γ)
    (key : String) :
    lookupAL (l.map (fun p => (p.1, f p.1 p.2))) key = (lookupAL l key).map (f key) := by
  induction l with
  | nil => simp [lookupAL]
  | cons p rest ih =>
    obtain ⟨k, v⟩ := p
    by_cases hk : k = key
    · subst hk
      simp [lookupAL, ih]
    · simp [lookupAL, hk, ih]

theorem lookupAL_of_mem_nodup {β : Type} (l : List (String × β)) (p : String × β)
    (hnd : (l.map Prod.fst).Nodup) (hm : p ∈ l) : lookupAL l p.1 = some p.2 := by
  induction l with
  | nil => simp at hm
  | cons e rest ih =>
    obtain ⟨k, v⟩ := e
    simp only [List.map_cons, List.nodup_cons] at hnd
    rcases List.mem_cons.mp hm with h | h
    · subst h
      simp [lookupAL]
    · have hne : k ≠ p.1 := by
        intro hkey
        exact hnd.1 (hkey ▸ List.mem_map_of_mem Prod.fst h)
      simp only [lookupAL, if_neg hne]
      exact ih hnd.2 h

/-! ### Shape lemmas for the per-pair processing -/

theorem setGauge_lookup (st : RegState) (key : String) (x : Rat) (k : String) :
    lookupAL (setGauge st key x).result k =
      (lookupAL st.result k).map (fun g => if k = key then { g with value := x } else g) := by
  have h1 : (setGauge st key x).result =
      st.result.map (fun p => (p.1, (fun k0 g => if k0 == key then { g with value := x } else g) p.1 p.2)) := by
    unfold setGauge
    apply List.map_congr_left
    intro p _
    by_cases h : p.1 == key <;> simp [h]
  rw [h1, lookupAL_map_value st.result (fun k0 g => if k0 == key then { g with value := x } else g) k]
  by_cases hk : k = key
  · simp [hk]
  · have hb : (k == key) = false := by simp [hk]
    simp [hb, hk]

theorem setGauge_published (st : RegState) (key : String) (x : Rat) :
    (setGauge st key x).published = st.published := rfl

/-- A freshly appended entry is found by lookup. -/
theorem lookupAL_append_fresh {β : Type} (l : List (String × β)) (key : String) (v : β)
    (h : lookupAL l key = none) : lookupAL (l ++ [(key, v)]) key = some v := by
  rw [lookupAL_append, h]
  simp [lookupAL]

/-- Setting the gauge of a freshly appended entry updates only that entry. -/
theorem setGauge_fresh_append (L : List (String × Gauge)) (P : List String) (key : String)
    (g : Gauge) (x : Rat) (h : lookupAL L key = none) :
    setGauge { result := L ++ [(key, g)], published := P } key x =
      { result := L ++ [(key, { g with value := x })], published := P } := by
  unfold setGauge
  simp only [RegState.mk.injEq, and_true]
  rw [List.map_append]
  congr 1
  · have hall := (lookupAL_eq_none L key).mp h
    conv_rhs => rw [← List.map_id L]
    apply List.map_congr_left
    intro p hp
    have hne : (p.1 == key) = false := by simp [hall p hp]
    simp [hne]
  · simp

theorem insertAL_lookup {β : Type} (l : List (String × β)) (k : String) (v : β) (key : String) :
    lookupAL (insertAL l k v) key = if key = k then some v else lookupAL l key := by
  unfold insertAL
  rw [lookupAL_append, lookupAL_filter_key l (fun k0 => !(k0 == k)) key]
  by_cases hk : key = k
  · subst hk
    simp [lookupAL]
  · have hb : (key == k) = false := by simp [hk]
    simp only [hb, Bool.not_false, if_true]
    have hk2 : ¬k = key := fun h0 => hk h0.symm
    rcases h : lookupAL l key with _ | v0 <;> simp [lookupAL, h, hk, hk2]

theorem lookupAL_isSome_mem_keys {β : Type} (l : List (String × β)) (key : String) :
    (lookupAL l key).isSome ↔ key ∈ l.map Prod.fst := by
  induction l with
  | nil => simp [lookupAL]
  | cons p rest ih =>
    obtain ⟨k, v⟩ := p
    by_cases hk : k = key
    · subst hk
      simp [lookupAL]
    · simp [lookupAL, hk, ih, Ne.symm hk]

/-! ### Lemmas about registerMetric and processPair -/

theorem registerMetric_key (q : Query) (st : RegState) (facets : List (String × Val))
    (suffix : String) :
    (registerMetric q st facets suffix).2.1 = resultKeyOf q facets suffix := by
  unfold registerMetric
  rcases h : lookupAL st.result (resultKeyOf q facets suffix) with _ | g <;> simp [h]

theorem registerMetric_published (q : Query) (st : RegState) (facets : List (String × Val))
    (suffix : String) : (registerMetric q st facets suffix).1.published = st.published := by
  unfold registerMetric
  rcases h : lookupAL st.result (resultKeyOf q facets suffix) with _ | g <;> simp [h]

theorem registerMetric_key_present (q : Query) (st : RegState) (facets : List (String × Val))
    (suffix : String) :
    (lookupAL (registerMetric q st facets suffix).1.result (resultKeyOf q facets suffix)).isSome := by
  unfold registerMetric
  rcases h : lookupAL st.result (resultKeyOf q facets suffix) with _ | g
  · simp only [h]
    rw [lookupAL_append_fresh _ _ _ h]
    rfl
  · simp [h]

/-- Lookups of already-present keys survive `registerMetric`. -/
theorem registerMetric_preserves (q : Query) (st : RegState) (facets : List (String × Val))
    (suffix : String) (key : String) (g : Gauge) (h : lookupAL st.result key = some g) :
    lookupAL (registerMetric q st facets suffix).1.result key = some g := by
  unfold registerMetric
  rcases h0 : lookupAL st.result (resultKeyOf q facets suffix) with _ | g0
  · simp only [h0]
    rw [lookupAL_append, h]
  · simp [h0, h]

theorem processPair_ok_inv (q : Query) (st : RegState) (row : Record) (suffix df : String)
    (subvals : List String) (st1 : RegState) (ks : String × MetricStatus)
    (h : processPair q st row suffix df subvals = (st1, .ok ks)) :
    ∃ fv x, scanRow row df subvals = .ok fv ∧ setValueForResult fv.2 = .ok x ∧
      ks.1 = (registerMetric q st fv.1 suffix).2.1 ∧
      ks.2 = (registerMetric q st fv.1 suffix).2.2 ∧
      st1 = setGauge (registerMetric q st fv.1 suffix).1 (registerMetric q st fv.1 suffix).2.1 x := by
  unfold processPair at h
  split at h
  · simp at h
  · rename_i fv hs
    split at h
    · simp at h
    · rename_i x hv
      simp only [Prod.mk.injEq, Except.ok.injEq] at h
      exact ⟨fv, x, hs, hv, by rw [← h.2], by rw [← h.2], h.1.symm⟩

theorem processPair_error_inv (q : Query) (st : RegState) (row : Record) (suffix df : String)
    (subvals : List String) (st1 : RegState) (e : String)
    (h : processPair q st row suffix df subvals = (st1, .error e)) :
    (scanRow row df subvals = .error e ∧ st1 = st) ∨
    (∃ fv, scanRow row df subvals = .ok fv ∧ setValueForResult fv.2 = .error e ∧
      st1 = (registerMetric q st fv.1 suffix).1) := by
  unfold processPair at h
  split at h
  · rename_i e0 hs
    simp only [Prod.mk.injEq, Except.error.injEq] at h
    exact Or.inl ⟨by rw [hs, h.2], h.1.symm⟩
  · rename_i fv hs
    split at h
    · rename_i e0 hv
      simp only [Prod.mk.injEq, Except.error.injEq] at h
      exact Or.inr ⟨fv, hs, by rw [hv, h.2], h.1.symm⟩
    · simp at h

/-- A value-coercion failure surfaces as the pair's error, with the
registry kept in the state `registerMetric` left it in. -/
theorem processPair_value_error (q : Query) (st : RegState) (row : Record) (suffix df : String)
    (subvals : List String) (fv : List (String × Val) × Val) (e : String)
    (hs : scanRow row df subvals = .ok fv) (hv : setValueForResult fv.2 = .error e) :
    processPair q st row suffix df subvals = ((registerMetric q st fv.1 suffix).1, .error e) := by
  rcases hp : processPair q st row suffix df subvals with ⟨st1, r⟩
  cases r with
  | ok ks =>
    obtain ⟨fv2, x, hs2, hv2, -⟩ := processPair_ok_inv _ _ _ _ _ _ _ _ hp
    rw [hs] at hs2
    cases hs2
    rw [hv] at hv2
    cases hv2
  | error e0 =>
    rcases processPair_error_inv _ _ _ _ _ _ _ _ hp with ⟨hs2, -⟩ | ⟨fv2, hs2, hv2, hst⟩
    · rw [hs] at hs2; cases hs2
    · rw [hs] at hs2
      cases hs2
      rw [hv] at hv2
      cases hv2
      rw [hst]

/-- A successful pair stores the coerced value in the gauge registered under
the pair's series key. -/
theorem processPair_sets_value (q : Query) (st : RegState) (row : Record) (suffix df : String)
    (subvals : List String) (fv : List (String × Val) × Val) (x : Rat) (st1 : RegState)
    (r : Except String (String × MetricStatus))
    (hs : scanRow row df subvals = .ok fv) (hv : setValueForResult fv.2 = .ok x)
    (h : processPair q st row suffix df subvals = (st1, r)) :
    (lookupAL st1.result (resultKeyOf q fv.1 suffix)).map Gauge.value = some x := by
  have hst : st1 =
      setGauge (registerMetric q st fv.1 suffix).1 (registerMetric q st fv.1 suffix).2.1 x := by
    cases r with
    | ok ks =>
      obtain ⟨fv2, x2, hs2, hv2, -, -, hst2⟩ := processPair_ok_inv _ _ _ _ _ _ _ _ h
      rw [hs] at hs2
      cases hs2
      rw [hv] at hv2
      cases hv2
      exact hst2
    | error e0 =>
      rcases processPair_error_inv _ _ _ _ _ _ _ _ h with ⟨hs2, -⟩ | ⟨fv2, hs2, hv2, -⟩
      · rw [hs] at hs2; cases hs2
      · rw [hs] at hs2
        cases hs2
        rw [hv] at hv2
        cases hv2
  rw [hst, registerMetric_key, setGauge_lookup]
  have hp := registerMetric_key_present q st fv.1 suffix
  rcases hg : lookupAL (registerMetric q st fv.1 suffix).1.result (resultKeyOf q fv.1 suffix)
    with _ | g
  · rw [hg] at hp; simp at hp
  · simp [hg]

/-- If the sub-metric loop of a row succeeds, every pair of that row scanned
and coerced successfully. -/
theorem processSubs_ok_pairs (q : Query) (subvals : List String) (row : Record) :
    ∀ (subm : List (String × String)) (st : RegState) (fw : FW) (st1 : RegState) (fw1 : FW),
    processSubs q subvals row subm st fw = (st1, .ok fw1) →
    ∀ p ∈ subm, ∃ fv x, scanRow row p.2 subvals = .ok fv ∧ setValueForResult fv.2 = .ok x := by
  intro subm
  induction subm with
  | nil => intro st fw st1 fw1 _ p hp; simp at hp
  | cons sd rest ih =>
    intro st fw st1 fw1 h p hp
    obtain ⟨suffix, df⟩ := sd
    simp only [processSubs] at h
    rcases hpp : processPair q st row suffix df subvals with ⟨st2, r⟩
    rw [hpp] at h
    cases r with
    | error e => simp at h
    | ok ks =>
      rcases List.mem_cons.mp hp with hpeq | hprest
      · subst hpeq
        obtain ⟨fv, x, h1, h2, -⟩ := processPair_ok_inv _ _ _ _ _ _ _ _ hpp
        exact ⟨fv, x, h1, h2⟩
      · exact ih _ _ _ _ h p hprest

/-- If the row loop succeeds, every (row, sub-metric) pair scanned and
coerced successfully. -/
theorem processRows_ok_pairs (q : Query) (subm : List (String × String)) (subvals : List String) :
    ∀ (rows : Records) (st : RegState) (fw : FW) (st1 : RegState) (fw1 : FW),
    processRows q subm subvals rows st fw = (st1, .ok fw1) →
    ∀ row ∈ rows, ∀ p ∈ subm,
      ∃ fv x, scanRow row p.2 subvals = .ok fv ∧ setValueForResult fv.2 = .ok x := by
  intro rows
  induction rows with
  | nil => intro st fw st1 fw1 _ row hrow; simp at hrow
  | cons r0 rest ih =>
    intro st fw st1 fw1 h row hrow
    simp only [processRows] at h
    rcases hps : processSubs q subvals r0 subm st fw with ⟨st2, rr⟩
    rw [hps] at h
    cases rr with
    | error e => simp at h
    | ok fw2 =>
      rcases List.mem_cons.mp hrow with hr | hr
      · subst hr
        exact processSubs_ok_pairs q subvals row _ _ _ _ _ hps
      · exact ih _ _ _ _ h row hr

/-- If `SetMetrics` succeeds, every (row, sub-metric) pair of the record set
scanned and coerced successfully. -/
theorem setMetrics_ok_pairs (q : Query) (st : RegState) (recs : Records) (st1 : RegState)
    (fw : FW) (h : SetMetrics q st recs = (st1, .ok fw)) :
    ∀ row ∈ recs, ∀ p ∈ effectiveSubmetrics q,
      ∃ fv x, scanRow row p.2 ((effectiveSubmetrics q).map Prod.snd) = .ok fv ∧
        setValueForResult fv.2 = .ok x := by
  unfold SetMetrics at h
  by_cases h1 : 1 < recs.length ∧ (recs.headD []).length = 1
  · rw [if_pos h1] at h; simp at h
  · rw [if_neg h1] at h
    by_cases h2 : ¬q.DataField = "" ∧ ¬q.SubMetrics.isEmpty
    · rw [if_pos h2] at h; simp at h
    · rw [if_neg h2] at h
      exact processRows_ok_pairs q _ _ recs st [] st1 fw h

/-! ### Claim theorems -/

/-- C3: a record set with more than one row whose first row has exactly one
column makes `SetMetrics` fail with the multi-row single-column error before
any row is processed: the registry state is returned unchanged. -/
theorem setMetrics_multirow_bare_value (q : Query) (st : RegState) (recs : Records)
    (hlen : 1 < recs.length) (hcol : (recs.headD []).length = 1) :
    SetMetrics q st recs =
      (st, .error "There is more than one row in the query result - with a single column") := by
  unfold SetMetrics
  rw [if_pos ⟨hlen, hcol⟩]

/-- Witness for C3: a two-row record set of single-column rows is rejected
with the state unchanged. -/
theorem setMetrics_multirow_bare_value_witness :
    1 < ([[("x", Val.vstr "7")], [("y", Val.vstr "8")]] : Records).length ∧
    (([[("x", Val.vstr "7")], [("y", Val.vstr "8")]] : Records).headD []).length = 1 ∧
    SetMetrics exQuery exEmpty [[("x", Val.vstr "7")], [("y", Val.vstr "8")]] =
      (exEmpty, .error "There is more than one row in the query result - with a single column") :=
  ⟨by decide, by decide,
    setMetrics_multirow_bare_value exQuery exEmpty _ (by decide) (by decide)⟩

/-- C5: a query with a nonempty `DataField` and nonempty `SubMetrics` makes
`SetMetrics` fail before any row is processed (state unchanged); and when
`SubMetrics` is empty the effective sub-metric map is the single entry
mapping the empty suffix to `DataField`. -/
theorem setMetrics_datafield_submetrics_exclusive (q : Query) (st : RegState) (recs : Records)
    (hdf : ¬q.DataField = "") (hsm : ¬q.SubMetrics.isEmpty) :
    (∃ e, SetMetrics q st recs = (st, .error e)) ∧
    (∀ q2 : Query, q2.SubMetrics = [] → effectiveSubmetrics q2 = [("", q2.DataField)]) := by
  constructor
  · unfold SetMetrics
    by_cases h1 : 1 < recs.length ∧ (recs.headD []).length = 1
    · exact ⟨_, by rw [if_pos h1]⟩
    · exact ⟨_, by rw [if_neg h1, if_pos ⟨hdf, hsm⟩]⟩
  · intro q2 h
    simp [effectiveSubmetrics, h]

/-- Witness for C5: a query with both `DataField` and `SubMetrics` set is
rejected with the state unchanged. -/
theorem setMetrics_datafield_submetrics_exclusive_witness :
    ¬(Query.mk "q" "count" [("s", "num")]).DataField = "" ∧
    ¬(Query.mk "q" "count" [("s", "num")]).SubMetrics.isEmpty ∧
    ((∃ e, SetMetrics (Query.mk "q" "count" [("s", "num")]) exEmpty exRecsA = (exEmpty, .error e)) ∧
      (∀ q2 : Query, q2.SubMetrics = [] → effectiveSubmetrics q2 = [("", q2.DataField)])) :=
  ⟨by decide, by decide,
    setMetrics_datafield_submetrics_exclusive (Query.mk "q" "count" [("s", "num")])
      exEmpty exRecsA (by decide) (by decide)⟩

/-- C9: a one-row one-column record set under the default sub-metric map
takes that single column as the value column regardless of its name, and the
created series carries an empty facet: no labels at all. -/
theorem setMetrics_single_cell (q : Query) (st : RegState) (k : String) (v : Val) (x : Rat)
    (hsm : q.SubMetrics = [])
    (hv : setValueForResult v = .ok x)
    (hfresh : lookupAL st.result (resultKeyOf q [] "") = none) :
    scanRow [(k, v)] q.DataField [q.DataField] = .ok ([], v) ∧
    SetMetrics q st [[(k, v)]] =
      ({ st with result := st.result ++ [(resultKeyOf q [] "",
          { name := "query_result_" ++ metricNameOf q "", help := "Result of an SQL query",
            constLabels := [], value := x })] },
        .ok [(resultKeyOf q [] "", .unregistered)]) := by
  have hscan : scanRow [(k, v)] q.DataField [q.DataField] = .ok ([], v) := by
    show scanRowAux 1 q.DataField [q.DataField] [(k, v)] [] none = .ok ([], v)
    simp [scanRowAux]
  refine ⟨hscan, ?_⟩
  unfold SetMetrics
  rw [if_neg (by simp)]
  rw [if_neg (by simp [hsm])]
  have hsubm : effectiveSubmetrics q = [("", q.DataField)] := by
    simp [effectiveSubmetrics, hsm]
  rw [hsubm]
  simp only [List.map_cons, List.map_nil, processRows, processSubs, processPair, hscan, hv]
  simp only [registerMetric, hfresh]
  rw [setGauge_fresh_append _ _ _ _ _ hfresh]
  rfl

/-- Witness for C9: a single cell named `anything` with string value `7`
creates the label-free default series with value 7. -/
theorem setMetrics_single_cell_witness :
    exQuery.SubMetrics = [] ∧
    setValueForResult (Val.vstr "7") = .ok 7 ∧
    lookupAL exEmpty.result (resultKeyOf exQuery [] "") = none ∧
    (scanRow [("anything", Val.vstr "7")] exQuery.DataField [exQuery.DataField] =
        .ok ([], Val.vstr "7") ∧
      SetMetrics exQuery exEmpty [[("anything", Val.vstr "7")]] =
        ({ exEmpty with result := exEmpty.result ++ [(resultKeyOf exQuery [] "",
            { name := "query_result_" ++ metricNameOf exQuery "", help := "Result of an SQL query",
              constLabels := [], value := 7 })] },
          .ok [(resultKeyOf exQuery [] "", .unregistered)])) :=
  ⟨rfl, by with_unfolding_all decide, by decide,
    setMetrics_single_cell exQuery exEmpty "anything" (Val.vstr "7") 7 rfl
      (by with_unfolding_all decide) (by decide)⟩

/-- C6: value coercion.  A string is parsed as a decimal float (success
feeds the parsed value, failure is an error), integers and floats pass
through unchanged, any other type is an error; `"12.5"` yields 25/2 and
`"abc"` fails to parse; a coercion error becomes the pair's error with no
rollback of the registration, a coercion success is stored in the series'
gauge, and a successful `SetMetrics` coerced every processed value. -/
theorem setValueForResult_coercion :
    (∀ s f, parseFloat s = some f → setValueForResult (.vstr s) = .ok f) ∧
    (∀ s, parseFloat s = none → ∃ e, setValueForResult (.vstr s) = .error e) ∧
    (∀ n : Int, setValueForResult (.vint n) = .ok (n : Rat)) ∧
    (∀ x : Rat, setValueForResult (.vfloat x) = .ok x) ∧
    (∀ b : Bool, ∃ e, setValueForResult (.vbool b) = .error e) ∧
    parseFloat "12.5" = some (mkRat 25 2) ∧
    parseFloat "abc" = none ∧
    (∀ q st row suffix df subvals fv e, scanRow row df subvals = .ok fv →
      setValueForResult fv.2 = .error e →
      processPair q st row suffix df subvals = ((registerMetric q st fv.1 suffix).1, .error e)) ∧
    (∀ q st row suffix df subvals fv x st1 r, scanRow row df subvals = .ok fv →
      setValueForResult fv.2 = .ok x → processPair q st row suffix df subvals = (st1, r) →
      (lookupAL st1.result (resultKeyOf q fv.1 suffix)).map Gauge.value = some x) ∧
    (∀ q st recs st1 fw, SetMetrics q st recs = (st1, .ok fw) →
      ∀ row ∈ recs, ∀ p ∈ effectiveSubmetrics q,
        ∃ fv x, scanRow row p.2 ((effectiveSubmetrics q).map Prod.snd) = .ok fv ∧
          setValueForResult fv.2 = .ok x) := by
  refine ⟨?_, ?_, ?_, ?_, ?_, ?_, ?_, ?_, ?_, ?_⟩
  · intro s f h
    simp only [setValueForResult, h]
  · intro s h
    refine ⟨"strconv.ParseFloat: parsing " ++ String.mk (escString s) ++ ": invalid syntax", ?_⟩
    simp only [setValueForResult, h]
  · intro n; rfl
  · intro x; rfl
  · intro b; exact ⟨_, rfl⟩
  · with_unfolding_all decide
  · decide
  · intro q st row suffix df subvals fv e hs hv
    exact processPair_value_error q st row suffix df subvals fv e hs hv
  · intro q st row suffix df subvals fv x st1 r hs hv h
    exact processPair_sets_value q st row suffix df subvals fv x st1 r hs hv h
  · intro q st recs st1 fw h
    exact setMetrics_ok_pairs q st recs st1 fw h

/-- With no value column among the remaining columns, a scan that has not
found a datum fails with the not-found error; one that has found a datum
succeeds. -/
theorem scanRowAux_count_zero (rowLen : Nat) (df : String) (subvals : List String) :
    ∀ (rest : List (String × Val)) (facet : List (String × Val)),
      rest.countP (fun p => !(decide (1 < rowLen) && !(strToLower p.1 == df))) = 0 →
      (scanRowAux rowLen df subvals rest facet none = .error "Data field not found in result set" ∧
        ∀ v, ∃ fv, scanRowAux rowLen df subvals rest facet (some v) = .ok fv) := by
  intro rest
  induction rest with
  | nil => intro facet _; exact ⟨rfl, fun v => ⟨(facet, v), rfl⟩⟩
  | cons kv t ih =>
    intro facet hc
    obtain ⟨k, v0⟩ := kv
    rw [List.countP_cons] at hc
    by_cases hcond : 1 < rowLen ∧ ¬strToLower k = df
    · have hpred : (!(decide (1 < rowLen) && !(strToLower k == df))) = false := by
        simp [hcond.1, hcond.2]
      rw [hpred] at hc
      simp only [if_false, Bool.false_eq_true, add_zero] at hc
      by_cases hsub : subvals.contains (strToLower k)
      · constructor
        · simp only [scanRowAux, if_pos hcond, if_pos hsub]
          exact (ih facet hc).1
        · intro v
          simp only [scanRowAux, if_pos hcond, if_pos hsub]
          exact (ih facet hc).2 v
      · constructor
        · simp only [scanRowAux, if_pos hcond, if_neg hsub]
          exact (ih _ hc).1
        · intro v
          simp only [scanRowAux, if_pos hcond, if_neg hsub]
          exact (ih _ hc).2 v
    · exfalso
      have hpred : (!(decide (1 < rowLen) && !(strToLower k == df))) = true := by
        by_cases hgt : 1 < rowLen
        · have hdf : strToLower k = df := by
            by_contra hne
            exact hcond ⟨hgt, hne⟩
          simp [hdf]
        · simp [hgt]
      rw [hpred, if_pos rfl] at hc
      omega

/-- Once a datum has been found, any further value column is the
multi-column error. -/
theorem scanRowAux_count_pos_some (rowLen : Nat) (df : String) (subvals : List String) :
    ∀ (rest : List (String × Val)) (facet : List (String × Val)) (v : Val),
      1 ≤ rest.countP (fun p => !(decide (1 < rowLen) && !(strToLower p.1 == df))) →
      scanRowAux rowLen df subvals rest facet (some v) =
        .error "Data field not specified for multi-column query" := by
  intro rest
  induction rest with
  | nil => intro facet v hc; simp at hc
  | cons kv t ih =>
    intro facet v hc
    obtain ⟨k, v0⟩ := kv
    rw [List.countP_cons] at hc
    by_cases hcond : 1 < rowLen ∧ ¬strToLower k = df
    · have hpred : (!(decide (1 < rowLen) && !(strToLower k == df))) = false := by
        simp [hcond.1, hcond.2]
      rw [hpred] at hc
      simp only [if_false, Bool.false_eq_true, add_zero] at hc
      by_cases hsub : subvals.contains (strToLower k)
      · simp only [scanRowAux, if_pos hcond, if_pos hsub]
        exact ih facet v hc
      · simp only [scanRowAux, if_pos hcond, if_neg hsub]
        exact ih _ v hc
    · simp only [scanRowAux, if_neg hcond]

/-- Two or more value columns with no datum found yet is the multi-column
error. -/
theorem scanRowAux_count_two_none (rowLen : Nat) (df : String) (subvals : List String) :
    ∀ (rest : List (String × Val)) (facet : List (String × Val)),
      2 ≤ rest.countP (fun p => !(decide (1 < rowLen) && !(strToLower p.1 == df))) →
      scanRowAux rowLen df subvals rest facet none =
        .error "Data field not specified for multi-column query" := by
  intro rest
  induction rest with
  | nil => intro facet hc; simp at hc
  | cons kv t ih =>
    intro facet hc
    obtain ⟨k, v0⟩ := kv
    rw [List.countP_cons] at hc
    by_cases hcond : 1 < rowLen ∧ ¬strToLower k = df
    · have hpred : (!(decide (1 < rowLen) && !(strToLower k == df))) = false := by
        simp [hcond.1, hcond.2]
      rw [hpred] at hc
      simp only [if_false, Bool.false_eq_true, add_zero] at hc
      by_cases hsub : subvals.contains (strToLower k)
      · simp only [scanRowAux, if_pos hcond, if_pos hsub]
        exact ih facet hc
      · simp only [scanRowAux, if_pos hcond, if_neg hsub]
        exact ih _ hc
    · have hpred : (!(decide (1 < rowLen) && !(strToLower k == df))) = true := by
        by_cases hgt : 1 < rowLen
        · have hdf : strToLower k = df := by
            by_contra hne
            exact hcond ⟨hgt, hne⟩
          simp [hdf]
        · simp [hgt]
      rw [hpred, if_pos rfl] at hc
      simp only [scanRowAux, if_neg hcond]
      exact scanRowAux_count_pos_some rowLen df subvals t facet v0 (by omega)

/-- C4: a column is routed to the value branch iff the row has exactly one
column or its lower-cased name equals the target data field; zero value
columns is the not-found error, two or more is the ambiguous multi-column
error, and a successful `SetMetrics` had exactly one value column for every
(row, sub-metric) pair it processed. -/
theorem setMetrics_value_column_rule :
    (∀ (row : Record) (df k : String) (v : Val), (k, v) ∈ row →
      ((¬(1 < row.length ∧ ¬strToLower k = df)) ↔ (row.length = 1 ∨ strToLower k = df))) ∧
    (∀ (row : Record) (df : String) (subvals : List String), valueColCount row df = 0 →
      scanRow row df subvals = .error "Data field not found in result set") ∧
    (∀ (row : Record) (df : String) (subvals : List String), 2 ≤ valueColCount row df →
      scanRow row df subvals = .error "Data field not specified for multi-column query") ∧
    (∀ q st recs st1 fw, SetMetrics q st recs = (st1, .ok fw) →
      ∀ row ∈ recs, ∀ p ∈ effectiveSubmetrics q, valueColCount row p.2 = 1) := by
  refine ⟨?_, ?_, ?_, ?_⟩
  · intro row df k v hm
    have hlen : 1 ≤ row.length := List.length_pos.mpr (List.ne_nil_of_mem hm)
    rw [not_and_or, not_not, not_lt]
    constructor
    · rintro (h | h)
      · exact Or.inl (le_antisymm h hlen)
      · exact Or.inr h
    · rintro (h | h)
      · exact Or.inl h.le
      · exact Or.inr h
  · intro row df subvals hc
    exact (scanRowAux_count_zero row.length df subvals row [] hc).1
  · intro row df subvals hc
    exact scanRowAux_count_two_none row.length df subvals row [] hc
  · intro q st recs st1 fw h row hrow p hp
    obtain ⟨fv, x, hs, -⟩ := setMetrics_ok_pairs q st recs st1 fw h row hrow p hp
    unfold scanRow at hs
    unfold valueColCount
    by_cases h0 : List.countP
        (fun p0 => !(decide (1 < row.length) && !(strToLower p0.1 == p.2))) row = 0
    · rw [(scanRowAux_count_zero row.length p.2
        ((effectiveSubmetrics q).map Prod.snd) row [] h0).1] at hs
      cases hs
    · by_cases h2 : 2 ≤ List.countP
          (fun p0 => !(decide (1 < row.length) && !(strToLower p0.1 == p.2))) row
      · rw [scanRowAux_count_two_none row.length p.2
          ((effectiveSubmetrics q).map Prod.snd) row [] h2] at hs
        cases hs
      · omega

/-- Witness for C4: a row with no qualifying column fails with the
not-found error; a row whose columns `A` and `a` both lower-case to the
data field fails with the ambiguous multi-column error. -/
theorem setMetrics_value_column_rule_witness :
    valueColCount [("a", Val.vstr "1"), ("b", Val.vstr "2")] "c" = 0 ∧
    scanRow [("a", Val.vstr "1"), ("b", Val.vstr "2")] "c" ["c"] =
      .error "Data field not found in result set" ∧
    2 ≤ valueColCount [("A", Val.vstr "1"), ("a", Val.vstr "2")] "a" ∧
    scanRow [("A", Val.vstr "1"), ("a", Val.vstr "2")] "a" ["a"] =
      .error "Data field not specified for multi-column query" :=
  ⟨by decide,
   setMetrics_value_column_rule.2.1 [("a", Val.vstr "1"), ("b", Val.vstr "2")] "c" ["c"]
     (by decide),
   by decide,
   setMetrics_value_column_rule.2.2.1 [("A", Val.vstr "1"), ("a", Val.vstr "2")] "a" ["a"]
     (by decide)⟩

theorem preservesHandles_refl (st : RegState) : preservesHandles st st :=
  ⟨rfl, fun key g h => ⟨g, h, rfl, rfl, rfl⟩⟩

theorem preservesHandles_trans (s1 s2 s3 : RegState) (h12 : preservesHandles s1 s2)
    (h23 : preservesHandles s2 s3) : preservesHandles s1 s3 := by
  refine ⟨h23.1.trans h12.1, fun key g h => ?_⟩
  obtain ⟨g1, hg1, hn1, hh1, hl1⟩ := h12.2 key g h
  obtain ⟨g2, hg2, hn2, hh2, hl2⟩ := h23.2 key g1 hg1
  exact ⟨g2, hg2, hn2.trans hn1, hh2.trans hh1, hl2.trans hl1⟩

theorem registerMetric_preservesHandles (q : Query) (st : RegState)
    (facets : List (String × Val)) (suffix : String) :
    preservesHandles st (registerMetric q st facets suffix).1 :=
  ⟨registerMetric_published q st facets suffix,
   fun key g h => ⟨g, registerMetric_preserves q st facets suffix key g h, rfl, rfl, rfl⟩⟩

theorem setGauge_preservesHandles (st : RegState) (key0 : String) (x : Rat) :
    preservesHandles st (setGauge st key0 x) := by
  refine ⟨setGauge_published st key0 x, fun key g h => ?_⟩
  rw [setGauge_lookup, h]
  by_cases hk : key = key0
  · exact ⟨{ g with value := x }, by simp [hk], rfl, rfl, rfl⟩
  · exact ⟨g, by simp [hk], rfl, rfl, rfl⟩

theorem processPair_preservesHandles (q : Query) (st : RegState) (row : Record)
    (suffix df : String) (subvals : List String) (st1 : RegState)
    (r : Except String (String × MetricStatus))
    (h : processPair q st row suffix df subvals = (st1, r)) :
    preservesHandles st st1 := by
  cases r with
  | ok ks =>
    obtain ⟨fv, x, -, -, -, -, hst⟩ := processPair_ok_inv _ _ _ _ _ _ _ _ h
    rw [hst]
    exact preservesHandles_trans _ _ _ (registerMetric_preservesHandles q st fv.1 suffix)
      (setGauge_preservesHandles _ _ _)
  | error e =>
    rcases processPair_error_inv _ _ _ _ _ _ _ _ h with ⟨-, hst⟩ | ⟨fv, -, -, hst⟩
    · rw [hst]; exact preservesHandles_refl st
    · rw [hst]; exact registerMetric_preservesHandles q st fv.1 suffix

theorem processSubs_preservesHandles (q : Query) (subvals : List String) (row : Record) :
    ∀ (subm : List (String × String)) (st : RegState) (fw : FW) (st1 : RegState)
      (r : Except String FW),
    processSubs q subvals row subm st fw = (st1, r) → preservesHandles st st1 := by
  intro subm
  induction subm with
  | nil =>
    intro st fw st1 r h
    simp only [processSubs, Prod.mk.injEq] at h
    rw [← h.1]
    exact preservesHandles_refl st
  | cons sd rest ih =>
    intro st fw st1 r h
    obtain ⟨suffix, df⟩ := sd
    simp only [processSubs] at h
    rcases hpp : processPair q st row suffix df subvals with ⟨st2, r2⟩
    rw [hpp] at h
    cases r2 with
    | error e =>
      simp only [Prod.mk.injEq] at h
      rw [← h.1]
      exact processPair_preservesHandles _ _ _ _ _ _ _ _ hpp
    | ok ks =>
      exact preservesHandles_trans _ _ _
        (processPair_preservesHandles _ _ _ _ _ _ _ _ hpp) (ih _ _ _ _ h)

theorem processRows_preservesHandles (q : Query) (subm : List (String × String))
    (subvals : List String) :
    ∀ (rows : Records) (st : RegState) (fw : FW) (st1 : RegState) (r : Except String FW),
    processRows q subm subvals rows st fw = (st1, r) → preservesHandles st st1 := by
  intro rows
  induction rows with
  | nil =>
    intro st fw st1 r h
    simp only [processRows, Prod.mk.injEq] at h
    rw [← h.1]
    exact preservesHandles_refl st
  | cons r0 rest ih =>
    intro st fw st1 r h
    simp only [processRows] at h
    rcases hps : processSubs q subvals r0 subm st fw with ⟨st2, r2⟩
    rw [hps] at h
    cases r2 with
    | error e =>
      simp only [Prod.mk.injEq] at h
      rw [← h.1]
      exact processSubs_preservesHandles _ _ _ _ _ _ _ _ hps
    | ok fw2 =>
      exact preservesHandles_trans _ _ _
        (processSubs_preservesHandles _ _ _ _ _ _ _ _ hps) (ih _ _ _ _ h)

/-- Any outcome of `SetMetrics` preserves the published set and the
registered handles. -/
theorem setMetrics_preservesHandles (q : Query) (st : RegState) (recs : Records)
    (st1 : RegState) (r : Except String FW) (h : SetMetrics q st recs = (st1, r)) :
    preservesHandles st st1 := by
  unfold SetMetrics at h
  by_cases h1 : 1 < recs.length ∧ (recs.headD []).length = 1
  · rw [if_pos h1] at h
    cases h
    exact preservesHandles_refl st
  · rw [if_neg h1] at h
    by_cases h2 : ¬q.DataField = "" ∧ ¬q.SubMetrics.isEmpty
    · rw [if_pos h2] at h
      cases h
      exact preservesHandles_refl st
    · rw [if_neg h2] at h
      exact processRows_preservesHandles q _ _ recs st [] st1 r h

/-- C7: when `SetMetrics` fails, `Worker.SetMetrics` skips the
register/evict pass: the final state is exactly the (partially mutated)
state `SetMetrics` left behind, the published set is untouched (nothing is
published or retired), and every previously registered key still maps to a
handle with its name and labels (mutations made earlier in the failing pass
are not rolled back). -/
theorem workerSetMetrics_error_behavior (q : Query) (st : RegState) (recs : Records)
    (st1 : RegState) (e : String) (h : SetMetrics q st recs = (st1, .error e)) :
    WorkerSetMetrics q st recs = st1 ∧ st1.published = st.published ∧
    (∀ key g, lookupAL st.result key = some g →
      ∃ g1, lookupAL st1.result key = some g1 ∧ g1.name = g.name ∧ g1.help = g.help ∧
        g1.constLabels = g.constLabels) := by
  have hp := setMetrics_preservesHandles q st recs st1 (.error e) h
  refine ⟨?_, hp.1, hp.2⟩
  unfold WorkerSetMetrics
  rw [h]

/-- Witness for C7: a second row with the unparseable value `"abc"` aborts
the call after the first row already created and set its series; the partial
state is kept and nothing is published. -/
theorem workerSetMetrics_error_behavior_witness :
    (SetMetrics exQuery exEmpty
        [[("region", Val.vstr "a"), ("count", Val.vstr "1")],
         [("region", Val.vstr "b"), ("count", Val.vstr "abc")]]).2 =
      .error "strconv.ParseFloat: parsing \"abc\": invalid syntax" ∧
    (WorkerSetMetrics exQuery exEmpty
        [[("region", Val.vstr "a"), ("count", Val.vstr "1")],
         [("region", Val.vstr "b"), ("count", Val.vstr "abc")]] =
      (SetMetrics exQuery exEmpty
        [[("region", Val.vstr "a"), ("count", Val.vstr "1")],
         [("region", Val.vstr "b"), ("count", Val.vstr "abc")]]).1 ∧
      (SetMetrics exQuery exEmpty
        [[("region", Val.vstr "a"), ("count", Val.vstr "1")],
         [("region", Val.vstr "b"), ("count", Val.vstr "abc")]]).1.published =
        exEmpty.published ∧
      (∀ key g, lookupAL exEmpty.result key = some g →
        ∃ g1, lookupAL (SetMetrics exQuery exEmpty
            [[("region", Val.vstr "a"), ("count", Val.vstr "1")],
             [("region", Val.vstr "b"), ("count", Val.vstr "abc")]]).1.result key = some g1 ∧
          g1.name = g.name ∧ g1.help = g.help ∧ g1.constLabels = g.constLabels)) :=
  ⟨by with_unfolding_all decide,
   workerSetMetrics_error_behavior exQuery exEmpty
     [[("region", Val.vstr "a"), ("count", Val.vstr "1")],
      [("region", Val.vstr "b"), ("count", Val.vstr "abc")]]
     _ "strconv.ParseFloat: parsing \"abc\": invalid syntax"
     (by with_unfolding_all decide)⟩

/-- C1: the register/evict pass after a successful apply.  Every registry
entry whose key was not seen in this round is dropped from the registry and
its handle unregistered from the published set; every seen entry in
`unregistered` status is published, and its registry entry (hence its
`registered` report on reuse) is kept untouched. -/
theorem registerMetrics_reconciliation (st : RegState) (fw : FW) (k : String) :
    ((lookupAL st.result k).isSome → lookupAL fw k = none →
      (lookupAL (RegisterMetrics st fw).result k = none ∧
        k ∉ (RegisterMetrics st fw).published)) ∧
    (lookupAL fw k = some .unregistered → (lookupAL st.result k).isSome →
      (k ∈ (RegisterMetrics st fw).published ∧
        lookupAL (RegisterMetrics st fw).result k = lookupAL st.result k)) := by
  constructor
  · intro hs hn
    constructor
    · show lookupAL (st.result.filter (fun p => (lookupAL fw p.1).isSome)) k = none
      rw [lookupAL_filter_key st.result (fun key => (lookupAL fw key).isSome) k, hn]
      simp
    · intro hmem
      unfold RegisterMetrics at hmem
      simp only [List.mem_append] at hmem
      rcases hmem with hl | hr
      · have hcond := (List.mem_filter.mp hl).2
        rw [hn] at hcond
        simp only [Option.isNone_none, Bool.and_true, Bool.not_eq_true'] at hcond
        rw [hcond] at hs
        cases hs
      · rw [List.mem_reverse] at hr
        obtain ⟨p, hp, hpk⟩ := List.mem_map.mp hr
        have hpred := (List.mem_filter.mp hp).2
        rw [hpk] at hpred
        rw [hn] at hpred
        cases hpred
  · intro hu hs
    constructor
    · rcases ho : lookupAL st.result k with _ | g
      · rw [ho] at hs; cases hs
      · unfold RegisterMetrics
        simp only [List.mem_append]
        right
        rw [List.mem_reverse]
        refine List.mem_map.mpr ⟨(k, g), ?_, rfl⟩
        refine List.mem_filter.mpr ⟨lookupAL_mem st.result k g ho, ?_⟩
        rw [hu]
        rfl
    · show lookupAL (st.result.filter (fun p => (lookupAL fw p.1).isSome)) k = _
      rw [lookupAL_filter_key st.result (fun key => (lookupAL fw key).isSome) k, hu]
      rfl

/-- Witness for C1: after publishing facets `region=a` and `region=b`, a
round containing only `region=a` evicts series `b` (key dropped,
unpublished) and keeps series `a` registered with its updated value 2. -/
theorem registerMetrics_reconciliation_witness :
    (lookupAL ((SetMetrics exQuery (WorkerSetMetrics exQuery exEmpty exRecsAB) exRecsA).1).result
        exKeyB).isSome ∧
    lookupAL ((SetMetrics exQuery (WorkerSetMetrics exQuery exEmpty exRecsAB) exRecsA).2.toOption.getD [])
        exKeyB = none ∧
    (lookupAL (RegisterMetrics (SetMetrics exQuery (WorkerSetMetrics exQuery exEmpty exRecsAB) exRecsA).1
        ((SetMetrics exQuery (WorkerSetMetrics exQuery exEmpty exRecsAB) exRecsA).2.toOption.getD [])).result
        exKeyB = none ∧
      exKeyB ∉ (RegisterMetrics (SetMetrics exQuery (WorkerSetMetrics exQuery exEmpty exRecsAB) exRecsA).1
        ((SetMetrics exQuery (WorkerSetMetrics exQuery exEmpty exRecsAB) exRecsA).2.toOption.getD [])).published) ∧
    (lookupAL (WorkerSetMetrics exQuery (WorkerSetMetrics exQuery exEmpty exRecsAB) exRecsA).result
        exKeyA).map Gauge.value = some 2 ∧
    exKeyA ∈ (WorkerSetMetrics exQuery (WorkerSetMetrics exQuery exEmpty exRecsAB) exRecsA).published ∧
    lookupAL (WorkerSetMetrics exQuery (WorkerSetMetrics exQuery exEmpty exRecsAB) exRecsA).result
        exKeyB = none :=
  ⟨by with_unfolding_all decide, by with_unfolding_all decide,
   (registerMetrics_reconciliation
       (SetMetrics exQuery (WorkerSetMetrics exQuery exEmpty exRecsAB) exRecsA).1
       ((SetMetrics exQuery (WorkerSetMetrics exQuery exEmpty exRecsAB) exRecsA).2.toOption.getD [])
       exKeyB).1
     (by with_unfolding_all decide) (by with_unfolding_all decide),
   by with_unfolding_all decide, by with_unfolding_all decide, by with_unfolding_all decide⟩

/-- Witness for C6: `"12.5"` coerces to 25/2, `"abc"` is a parse error. -/
theorem setValueForResult_coercion_witness :
    parseFloat "12.5" = some (mkRat 25 2) ∧
    setValueForResult (Val.vstr "12.5") = .ok (mkRat 25 2) ∧
    parseFloat "abc" = none ∧
    (∃ e, setValueForResult (Val.vstr "abc") = .error e) :=
  ⟨by with_unfolding_all decide,
   setValueForResult_coercion.1 "12.5" (mkRat 25 2) (by with_unfolding_all decide),
   by decide,
   setValueForResult_coercion.2.1 "abc" (by decide)⟩

/-! ### Lemmas for the action factoring and idempotence -/

theorem setGauge_isSome (st : RegState) (key : String) (x : Rat) (k : String) :
    (lookupAL (setGauge st key x).result k).isSome = (lookupAL st.result k).isSome := by
  rw [setGauge_lookup]
  rcases lookupAL st.result k with _ | g <;> rfl

theorem runAct_published (st : RegState) (a : Act) : (runAct st a).1.published = st.published := by
  unfold runAct
  by_cases h : (lookupAL st.result a.key).isSome <;> simp [h, setGauge_published]

theorem runActs_published : ∀ (as1 : List Act) (st : RegState) (fw : FW),
    (runActs st fw as1).1.published = st.published := by
  intro as1
  induction as1 with
  | nil => intro st fw; rfl
  | cons a rest ih =>
    intro st fw
    simp only [runActs]
    rw [ih, runAct_published]

theorem runAct_isSome (st : RegState) (a : Act) (k : String) :
    (lookupAL (runAct st a).1.result k).isSome =
      ((lookupAL st.result k).isSome || k == a.key) := by
  unfold runAct
  by_cases h : (lookupAL st.result a.key).isSome
  · simp only [h, if_true, setGauge_isSome]
    by_cases hk : k = a.key
    · subst hk
      simp [h]
    · simp [hk]
  · simp only [h, Bool.false_eq_true, if_false, setGauge_isSome]
    show (lookupAL (st.result ++ [(a.key, a.gauge)]) k).isSome = _
    rw [lookupAL_append]
    rcases h0 : lookupAL st.result k with _ | g
    · by_cases hk : a.key = k
      · subst hk
        simp [lookupAL]
      · have hk2 : ¬k = a.key := fun h1 => hk h1.symm
        simp [lookupAL, hk, hk2]
    · by_cases hk : k = a.key
      · subst hk
        rw [h0] at h
        cases h rfl
      · simp [hk]

theorem runAct_lookup_self (st : RegState) (a : Act) :
    ∃ g, lookupAL (runAct st a).1.result a.key = some g ∧ g.value = a.value := by
  unfold runAct
  by_cases h : (lookupAL st.result a.key).isSome
  · simp only [h, if_true]
    rw [setGauge_lookup]
    rcases h0 : lookupAL st.result a.key with _ | g
    · rw [h0] at h; cases h
    · exact ⟨{ g with value := a.value }, by simp, rfl⟩
  · simp only [h, Bool.false_eq_true, if_false]
    have hn : lookupAL st.result a.key = none := by
      rcases h0 : lookupAL st.result a.key with _ | g
      · rfl
      · rw [h0] at h; cases h rfl
    rw [setGauge_fresh_append st.result st.published a.key a.gauge a.value hn]
    refine ⟨{ a.gauge with value := a.value }, ?_, rfl⟩
    exact lookupAL_append_fresh st.result a.key _ hn

theorem runAct_lookup_other (st : RegState) (a : Act) (k : String) (hk : ¬k = a.key) :
    lookupAL (runAct st a).1.result k = lookupAL st.result k := by
  unfold runAct
  by_cases h : (lookupAL st.result a.key).isSome
  · simp only [h, if_true]
    rw [setGauge_lookup]
    rcases lookupAL st.result k with _ | g
    · rfl
    · simp [hk]
  · simp only [h, Bool.false_eq_true, if_false]
    rw [setGauge_lookup]
    show (lookupAL (st.result ++ [(a.key, a.gauge)]) k).map _ = _
    rw [lookupAL_append]
    rcases h0 : lookupAL st.result k with _ | g
    · have hk2 : ¬a.key = k := fun h1 => hk h1.symm
      simp [lookupAL, hk, hk2]
    · simp [hk]

theorem runActs_result_isSome : ∀ (as1 : List Act) (st : RegState) (fw : FW) (k : String),
    (lookupAL (runActs st fw as1).1.result k).isSome ↔
      ((lookupAL st.result k).isSome ∨ k ∈ as1.map Act.key) := by
  intro as1
  induction as1 with
  | nil => intro st fw k; simp [runActs]
  | cons a rest ih =>
    intro st fw k
    simp only [runActs]
    rw [ih]
    rw [runAct_isSome]
    by_cases hk : k = a.key
    · subst hk
      simp
    · have hb : (k == a.key) = false := by simp [hk]
      simp [hb, hk]

theorem runActs_untouched : ∀ (as1 : List Act) (st : RegState) (fw : FW) (k : String),
    k ∉ as1.map Act.key →
    lookupAL (runActs st fw as1).1.result k = lookupAL st.result k := by
  intro as1
  induction as1 with
  | nil => intro st fw k _; rfl
  | cons a rest ih =>
    intro st fw k hk
    simp only [List.map_cons, List.mem_cons, not_or] at hk
    simp only [runActs]
    rw [ih _ _ _ hk.2, runAct_lookup_other st a k hk.1]

theorem lastWriteVal_general (k : String) : ∀ (as1 : List Act) (init : Option Rat),
    as1.foldl (fun acc a => if a.key == k then some a.value else acc) init =
      match lastWriteVal as1 k with
      | some x => some x
      | none => init := by
  intro as1
  induction as1 with
  | nil => intro init; rfl
  | cons a rest ih =>
    intro init
    show rest.foldl _ (if a.key == k then some a.value else init) = _
    rw [ih (if a.key == k then some a.value else init)]
    show _ = match rest.foldl _ (if a.key == k then some a.value else none) with
      | some x => some x
      | none => init
    rw [ih (if a.key == k then some a.value else none)]
    rcases lastWriteVal rest k with _ | x
    · by_cases hb : a.key == k <;> simp [hb]
    · rfl

theorem lastWriteVal_cons (a : Act) (rest : List Act) (k : String) :
    lastWriteVal (a :: rest) k =
      match lastWriteVal rest k with
      | some x => some x
      | none => if a.key == k then some a.value else none := by
  show rest.foldl _ (if a.key == k then some a.value else none) = _
  rw [lastWriteVal_general k rest (if a.key == k then some a.value else none)]

theorem lastWriteVal_none_iff (k : String) : ∀ (as1 : List Act),
    lastWriteVal as1 k = none ↔ k ∉ as1.map Act.key := by
  intro as1
  induction as1 with
  | nil => simp [lastWriteVal]
  | cons a rest ih =>
    rw [lastWriteVal_cons]
    simp only [List.map_cons, List.mem_cons, not_or]
    rcases h : lastWriteVal rest k with _ | x
    · have hrest : k ∉ rest.map Act.key := ih.mp h
      by_cases hb : a.key = k
      · simp [hb]
      · have hb2 : (a.key == k) = false := by simp [hb]
        have hb3 : ¬k = a.key := fun h1 => hb h1.symm
        simp [hb2, hb3, hrest]
    · have hrest : k ∈ rest.map Act.key := by
        by_contra hmem
        rw [ih.mpr hmem] at h
        cases h
      simp [hrest]

theorem lastWriteVal_isSome_iff (k : String) (as1 : List Act) :
    (lastWriteVal as1 k).isSome ↔ k ∈ as1.map Act.key := by
  rcases h : lastWriteVal as1 k with _ | x
  · simpa [h] using (lastWriteVal_none_iff k as1).mp h
  · simp only [Option.isSome_some, true_iff]
    by_contra hmem
    rw [(lastWriteVal_none_iff k as1).mpr hmem] at h
    cases h

theorem runActs_value : ∀ (as1 : List Act) (st : RegState) (fw : FW) (k : String) (x : Rat),
    lastWriteVal as1 k = some x →
    ∃ g, lookupAL (runActs st fw as1).1.result k = some g ∧ g.value = x := by
  intro as1
  induction as1 with
  | nil => intro st fw k x h; cases h
  | cons a rest ih =>
    intro st fw k x h
    rw [lastWriteVal_cons, ] at h
    rcases h0 : lastWriteVal rest k with _ | x0
    · rw [h0] at h
      have h2 : (if a.key == k then some a.value else (none : Option Rat)) = some x := h
      by_cases hb : a.key == k
      · rw [if_pos hb] at h2
        cases h2
        have hkeq : a.key = k := by simpa using hb
        have hmem : k ∉ rest.map Act.key := (lastWriteVal_none_iff k rest).mp h0
        simp only [runActs]
        rw [runActs_untouched rest _ _ k hmem]
        obtain ⟨g, hg, hgv⟩ := runAct_lookup_self st a
        exact ⟨g, by rw [← hkeq]; exact hg, hgv⟩
      · rw [if_neg (by simpa using hb)] at h2
        cases h2
    · rw [h0] at h
      have h2 : some x0 = some x := h
      cases h2
      simp only [runActs]
      exact ih _ _ k _ h0

theorem runActs_fw_isSome : ∀ (as1 : List Act) (st : RegState) (fw : FW) (k : String),
    (lookupAL (runActs st fw as1).2 k).isSome ↔
      (k ∈ as1.map Act.key ∨ (lookupAL fw k).isSome) := by
  intro as1
  induction as1 with
  | nil => intro st fw k; simp [runActs]
  | cons a rest ih =>
    intro st fw k
    simp only [runActs]
    rw [ih]
    rw [insertAL_lookup]
    by_cases hk : k = a.key
    · simp [hk]
    · simp [hk]

theorem setGauge_keys (st : RegState) (key : String) (x : Rat) :
    (setGauge st key x).result.map Prod.fst = st.result.map Prod.fst := by
  unfold setGauge
  rw [List.map_map]
  apply List.map_congr_left
  intro p _
  by_cases h : p.1 = key <;> simp [h]

theorem runAct_nodup (st : RegState) (a : Act)
    (h : (st.result.map Prod.fst).Nodup) : ((runAct st a).1.result.map Prod.fst).Nodup := by
  unfold runAct
  by_cases hp : (lookupAL st.result a.key).isSome
  · simp only [hp, if_true]
    rw [setGauge_keys]
    exact h
  · simp only [hp, Bool.false_eq_true, if_false]
    rw [setGauge_keys]
    show ((st.result ++ [(a.key, a.gauge)]).map Prod.fst).Nodup
    rw [List.map_append]
    simp only [List.map_cons, List.map_nil]
    rw [List.nodup_append]
    refine ⟨h, List.nodup_singleton _, ?_⟩
    intro y hy hmem
    simp only [List.mem_singleton] at hmem
    subst hmem
    rw [← lookupAL_isSome_mem_keys] at hy
    exact hp hy

theorem runActs_nodup : ∀ (as1 : List Act) (st : RegState) (fw : FW),
    (st.result.map Prod.fst).Nodup → ((runActs st fw as1).1.result.map Prod.fst).Nodup := by
  intro as1
  induction as1 with
  | nil => intro st fw h; exact h
  | cons a rest ih =>
    intro st fw h
    simp only [runActs]
    exact ih _ _ (runAct_nodup st a h)

theorem runActs_all_present : ∀ (as1 : List Act) (st : RegState) (fw : FW),
    (∀ k, k ∈ as1.map Act.key → (lookupAL st.result k).isSome) →
    runActs st fw as1 = (applyWrites st as1, regAll fw as1) := by
  intro as1
  induction as1 with
  | nil => intro st fw _; rfl
  | cons a rest ih =>
    intro st fw hall
    have hak : (lookupAL st.result a.key).isSome := hall a.key (by simp)
    have hact : runAct st a = (setGauge st a.key a.value, .registered) := by
      unfold runAct
      rw [if_pos hak]
    simp only [runActs, hact]
    have hrest : ∀ k, k ∈ rest.map Act.key →
        (lookupAL (setGauge st a.key a.value).result k).isSome := by
      intro k hk
      rw [setGauge_isSome]
      exact hall k (by simp [hk])
    rw [ih _ _ hrest]
    rfl

theorem applyWrites_published : ∀ (as1 : List Act) (st : RegState),
    (applyWrites st as1).published = st.published := by
  intro as1
  induction as1 with
  | nil => intro st; rfl
  | cons a rest ih =>
    intro st
    show (applyWrites (setGauge st a.key a.value) rest).published = _
    rw [ih, setGauge_published]

theorem applyWrites_result : ∀ (as1 : List Act) (st : RegState),
    (applyWrites st as1).result = st.result.map (fun p =>
      (p.1, match lastWriteVal as1 p.1 with
        | some x => { p.2 with value := x }
        | none => p.2)) := by
  intro as1
  induction as1 with
  | nil =>
    intro st
    show st.result = st.result.map (fun p =>
      (p.1, match lastWriteVal [] p.1 with
        | some x => { p.2 with value := x }
        | none => p.2))
    have hpt : ∀ p ∈ st.result, (p.1,
        (match lastWriteVal [] p.1 with
          | some x => { p.2 with value := x }
          | none => p.2)) = id p := fun p _ => rfl
    exact ((List.map_congr_left hpt).trans (List.map_id st.result)).symm
  | cons a rest ih =>
    intro st
    show (applyWrites (setGauge st a.key a.value) rest).result = _
    rw [ih]
    unfold setGauge
    simp only [List.map_map]
    apply List.map_congr_left
    intro p _
    simp only [Function.comp_apply]
    rw [lastWriteVal_cons]
    by_cases hb : p.1 = a.key
    · have hb1 : (p.1 == a.key) = true := by simp [hb]
      have hb2 : (a.key == p.1) = true := by simp [Eq.symm hb]
      simp only [hb1, if_true]
      rcases h0 : lastWriteVal rest p.1 with _ | x0 <;> simp [h0, hb2]
    · have hb1 : (p.1 == a.key) = false := by simp [hb]
      have hb2 : (a.key == p.1) = false := by
        simp only [beq_eq_false_iff_ne]
        exact fun h1 => hb h1.symm
      simp only [hb1, Bool.false_eq_true, if_false]
      rcases h0 : lastWriteVal rest p.1 with _ | x0 <;> simp [h0, hb2]

theorem applyWrites_id (st : RegState) (as1 : List Act)
    (h : ∀ p ∈ st.result, ∀ x, lastWriteVal as1 p.1 = some x → p.2.value = x) :
    applyWrites st as1 = st := by
  have hr : (applyWrites st as1).result = st.result := by
    rw [applyWrites_result]
    conv_rhs => rw [← List.map_id st.result]
    apply List.map_congr_left
    intro p hp
    rcases h0 : lastWriteVal as1 p.1 with _ | x
    · simp
    · have hv := h p hp x h0
      simp only [id]
      obtain ⟨k0, g0⟩ := p
      obtain ⟨n0, hh0, l0, v0⟩ := g0
      simp only at hv
      simp [hv]
  have hp : (applyWrites st as1).published = st.published := applyWrites_published as1 st
  calc applyWrites st as1
      = ⟨(applyWrites st as1).result, (applyWrites st as1).published⟩ := rfl
    _ = ⟨st.result, st.published⟩ := by rw [hr, hp]
    _ = st := rfl

theorem regAll_entries : ∀ (as1 : List Act) (fw : FW),
    (∀ p ∈ fw, p.2 = MetricStatus.registered) →
    ∀ p ∈ regAll fw as1, p.2 = MetricStatus.registered := by
  intro as1
  induction as1 with
  | nil => intro fw h; exact h
  | cons a rest ih =>
    intro fw h
    show ∀ p ∈ regAll (insertAL fw a.key .registered) rest, p.2 = MetricStatus.registered
    apply ih
    intro p hp
    unfold insertAL at hp
    rcases List.mem_append.mp hp with hl | hr
    · exact h p (List.mem_of_mem_filter hl)
    · simp only [List.mem_singleton] at hr
      rw [hr]

theorem regAll_isSome : ∀ (as1 : List Act) (fw : FW) (k : String),
    (lookupAL (regAll fw as1) k).isSome ↔ (k ∈ as1.map Act.key ∨ (lookupAL fw k).isSome) := by
  intro as1
  induction as1 with
  | nil => intro fw k; simp [regAll]
  | cons a rest ih =>
    intro fw k
    show (lookupAL (regAll (insertAL fw a.key .registered) rest) k).isSome ↔ _
    rw [ih, insertAL_lookup]
    by_cases hk : k = a.key <;> simp [hk]

theorem registerMetric_cases (q : Query) (st : RegState) (facets : List (String × Val))
    (suffix : String) :
    registerMetric q st facets suffix =
      if (lookupAL st.result (resultKeyOf q facets suffix)).isSome then
        (st, resultKeyOf q facets suffix, .registered)
      else ({ st with result := st.result ++ [(resultKeyOf q facets suffix,
          { name := "query_result_" ++ metricNameOf q suffix, help := "Result of an SQL query",
            constLabels := labelsOf facets, value := 0 })] },
        resultKeyOf q facets suffix, .unregistered) := by
  unfold registerMetric
  rcases h : lookupAL st.result (resultKeyOf q facets suffix) with _ | g <;> simp [h]

theorem pairCompute_ok_inv (q : Query) (row : Record) (suffix df : String)
    (subvals : List String) (a : Act) (h : pairCompute q row suffix df subvals = .ok a) :
    ∃ fv x, scanRow row df subvals = .ok fv ∧ setValueForResult fv.2 = .ok x ∧
      a = ⟨resultKeyOf q fv.1 suffix,
        { name := "query_result_" ++ metricNameOf q suffix, help := "Result of an SQL query",
          constLabels := labelsOf fv.1, value := 0 }, x⟩ := by
  unfold pairCompute at h
  split at h
  · cases h
  · rename_i fv hs
    split at h
    · cases h
    · rename_i x hv
      cases h
      exact ⟨fv, x, hs, hv, rfl⟩

theorem pairCompute_error_inv (q : Query) (row : Record) (suffix df : String)
    (subvals : List String) (e : String) (h : pairCompute q row suffix df subvals = .error e) :
    scanRow row df subvals = .error e ∨
    (∃ fv, scanRow row df subvals = .ok fv ∧ setValueForResult fv.2 = .error e) := by
  unfold pairCompute at h
  split at h
  · rename_i e0 hs
    cases h
    exact Or.inl hs
  · rename_i fv hs
    split at h
    · rename_i e0 hv
      cases h
      exact Or.inr ⟨fv, hs, hv⟩
    · cases h

theorem processPair_eq_runAct (q : Query) (st : RegState) (row : Record) (suffix df : String)
    (subvals : List String) (a : Act) (h : pairCompute q row suffix df subvals = .ok a) :
    processPair q st row suffix df subvals = ((runAct st a).1, .ok (a.key, (runAct st a).2)) := by
  obtain ⟨fv, x, hs, hv, ha⟩ := pairCompute_ok_inv q row suffix df subvals a h
  rcases hp : processPair q st row suffix df subvals with ⟨st1, r⟩
  cases r with
  | error e =>
    rcases processPair_error_inv _ _ _ _ _ _ _ _ hp with ⟨hs2, -⟩ | ⟨fv2, hs2, hv2, -⟩
    · rw [hs] at hs2; cases hs2
    · rw [hs] at hs2
      cases hs2
      rw [hv] at hv2
      cases hv2
  | ok ks =>
    obtain ⟨fv2, x2, hs2, hv2, hk1, hk2, hst⟩ := processPair_ok_inv _ _ _ _ _ _ _ _ hp
    rw [hs] at hs2
    cases hs2
    rw [hv] at hv2
    cases hv2
    have hks : ks = ((registerMetric q st fv.1 suffix).2.1, (registerMetric q st fv.1 suffix).2.2) := by
      obtain ⟨ka, kb⟩ := ks
      simp only at hk1 hk2
      rw [hk1, hk2]
    rw [hst, hks]
    have hgoal : (setGauge (registerMetric q st fv.1 suffix).1
          (registerMetric q st fv.1 suffix).2.1 x,
        ((registerMetric q st fv.1 suffix).2.1, (registerMetric q st fv.1 suffix).2.2)) =
        ((runAct st a).1, (a.key, (runAct st a).2)) := by
      rw [registerMetric_cases]
      unfold runAct
      rw [ha]
      by_cases hpres : (lookupAL st.result (resultKeyOf q fv.1 suffix)).isSome
      · simp only [hpres, if_true]
      · simp only [hpres, Bool.false_eq_true, if_false]
    have hg1 : setGauge (registerMetric q st fv.1 suffix).1
        (registerMetric q st fv.1 suffix).2.1 x = (runAct st a).1 := congrArg Prod.fst hgoal
    have hg2 : ((registerMetric q st fv.1 suffix).2.1, (registerMetric q st fv.1 suffix).2.2) =
        (a.key, (runAct st a).2) := congrArg Prod.snd hgoal
    rw [hg1, hg2]

theorem processPair_error_of_compute (q : Query) (st : RegState) (row : Record)
    (suffix df : String) (subvals : List String) (e : String)
    (h : pairCompute q row suffix df subvals = .error e) :
    ∃ st1, processPair q st row suffix df subvals = (st1, .error e) := by
  rcases pairCompute_error_inv _ _ _ _ _ _ h with hs | ⟨fv, hs, hv⟩
  · refine ⟨st, ?_⟩
    unfold processPair
    rw [hs]
  · exact ⟨(registerMetric q st fv.1 suffix).1, processPair_value_error q st row suffix df subvals fv e hs hv⟩

theorem runActs_append : ∀ (as1 as2 : List Act) (st : RegState) (fw : FW),
    runActs st fw (as1 ++ as2) =
      runActs (runActs st fw as1).1 (runActs st fw as1).2 as2 := by
  intro as1
  induction as1 with
  | nil => intro as2 st fw; rfl
  | cons a rest ih =>
    intro as2 st fw
    simp only [List.cons_append, runActs]
    exact ih as2 _ _

theorem processSubs_eq_runActs (q : Query) (subvals : List String) (row : Record) :
    ∀ (subm : List (String × String)) (as1 : List Act) (st : RegState) (fw : FW),
    subsCompute q subvals row subm = .ok as1 →
    processSubs q subvals row subm st fw = ((runActs st fw as1).1, .ok (runActs st fw as1).2) := by
  intro subm
  induction subm with
  | nil =>
    intro as1 st fw h
    unfold subsCompute at h
    cases h
    rfl
  | cons sd rest ih =>
    intro as1 st fw h
    obtain ⟨suffix, df⟩ := sd
    unfold subsCompute at h
    split at h
    · cases h
    · rename_i a hpc
      rcases hsc : subsCompute q subvals row rest with e | as2
      · rw [hsc] at h; cases h
      · rw [hsc] at h
        have has1 : as1 = a :: as2 := by
          simp only [Except.map, hsc] at h
          cases h
          rfl
        subst has1
        simp only [processSubs]
        rw [processPair_eq_runAct q st row suffix df subvals a hpc]
        simp only [runActs]
        exact ih as2 _ _ hsc

theorem processSubs_error_of_compute (q : Query) (subvals : List String) (row : Record) :
    ∀ (subm : List (String × String)) (e : String) (st : RegState) (fw : FW),
    subsCompute q subvals row subm = .error e →
    ∃ st1, processSubs q subvals row subm st fw = (st1, .error e) := by
  intro subm
  induction subm with
  | nil => intro e st fw h; cases h
  | cons sd rest ih =>
    intro e st fw h
    obtain ⟨suffix, df⟩ := sd
    unfold subsCompute at h
    split at h
    · rename_i e0 hpc
      cases h
      obtain ⟨st1, hp⟩ := processPair_error_of_compute q st row suffix df subvals e hpc
      refine ⟨st1, ?_⟩
      simp only [processSubs]
      rw [hp]
    · rename_i a hpc
      rcases hsc : subsCompute q subvals row rest with e0 | as2
      · rw [hsc] at h
        have he : e0 = e := by
          simp only [Except.map, hsc] at h
          cases h
          rfl
        obtain ⟨st1, hrec⟩ := ih e0 _ (insertAL fw a.key (runAct st a).2) hsc
        refine ⟨st1, ?_⟩
        simp only [processSubs]
        rw [processPair_eq_runAct q st row suffix df subvals a hpc]
        rw [← he]
        exact hrec
      · rw [hsc] at h
        simp only [Except.map] at h
        cases h

theorem processRows_eq_runActs (q : Query) (subm : List (String × String))
    (subvals : List String) :
    ∀ (rows : Records) (as1 : List Act) (st : RegState) (fw : FW),
    rowsCompute q subm subvals rows = .ok as1 →
    processRows q subm subvals rows st fw = ((runActs st fw as1).1, .ok (runActs st fw as1).2) := by
  intro rows
  induction rows with
  | nil =>
    intro as1 st fw h
    unfold rowsCompute at h
    cases h
    rfl
  | cons row rest ih =>
    intro as1 st fw h
    unfold rowsCompute at h
    split at h
    · cases h
    · rename_i asr hsc
      rcases hrc : rowsCompute q subm subvals rest with e | as2
      · rw [hrc] at h; cases h
      · rw [hrc] at h
        have has1 : as1 = asr ++ as2 := by
          simp only [Except.map, hrc] at h
          cases h
          rfl
        subst has1
        simp only [processRows]
        rw [processSubs_eq_runActs q subvals row subm asr st fw hsc]
        rw [runActs_append]
        exact ih as2 _ _ hrc

theorem processRows_error_of_compute (q : Query) (subm : List (String × String))
    (subvals : List String) :
    ∀ (rows : Records) (e : String) (st : RegState) (fw : FW),
    rowsCompute q subm subvals rows = .error e →
    ∃ st1, processRows q subm subvals rows st fw = (st1, .error e) := by
  intro rows
  induction rows with
  | nil => intro e st fw h; cases h
  | cons row rest ih =>
    intro e st fw h
    unfold rowsCompute at h
    split at h
    · rename_i e0 hsc
      cases h
      obtain ⟨st1, hp⟩ := processSubs_error_of_compute q subvals row subm e st fw hsc
      refine ⟨st1, ?_⟩
      simp only [processRows]
      rw [hp]
    · rename_i asr hsc
      rcases hrc : rowsCompute q subm subvals rest with e0 | as2
      · rw [hrc] at h
        have he : e0 = e := by
          simp only [Except.map, hrc] at h
          cases h
          rfl
        obtain ⟨st1, hrec⟩ := ih e0 (runActs st fw asr).1 (runActs st fw asr).2 hrc
        refine ⟨st1, ?_⟩
        simp only [processRows]
        rw [processSubs_eq_runActs q subvals row subm asr st fw hsc]
        rw [← he]
        exact hrec
      · rw [hrc] at h
        simp only [Except.map] at h
        cases h

/-- A successful `SetMetrics` is the run of the purely computed action list
from the empty seen map. -/
theorem setMetrics_ok_runActs (q : Query) (st : RegState) (recs : Records) (st1 : RegState)
    (fw : FW) (h : SetMetrics q st recs = (st1, .ok fw)) :
    ∃ as1, rowsCompute q (effectiveSubmetrics q) ((effectiveSubmetrics q).map Prod.snd) recs =
        .ok as1 ∧
      st1 = (runActs st [] as1).1 ∧ fw = (runActs st [] as1).2 ∧
      ¬(1 < recs.length ∧ (recs.headD []).length = 1) ∧
      ¬(¬q.DataField = "" ∧ ¬q.SubMetrics.isEmpty) := by
  unfold SetMetrics at h
  by_cases h1 : 1 < recs.length ∧ (recs.headD []).length = 1
  · rw [if_pos h1] at h; simp at h
  · rw [if_neg h1] at h
    by_cases h2 : ¬q.DataField = "" ∧ ¬q.SubMetrics.isEmpty
    · rw [if_pos h2] at h; simp at h
    · rw [if_neg h2] at h
      rcases hrc : rowsCompute q (effectiveSubmetrics q)
          ((effectiveSubmetrics q).map Prod.snd) recs with e | as1
      · obtain ⟨st2, hp⟩ := processRows_error_of_compute q _ _ recs e st [] hrc
        rw [hp] at h
        simp at h
      · rw [processRows_eq_runActs q _ _ recs as1 st [] hrc] at h
        simp only [Prod.mk.injEq, Except.ok.injEq] at h
        exact ⟨as1, rfl, h.1.symm, h.2.symm, h1, h2⟩

/-- C2: idempotence of a full apply (including the register/evict pass).
After a successful `SetMetrics` followed by `RegisterMetrics`, re-applying
the identical record set returns the state unchanged — no entry is created,
none is retired, every published value is unchanged — every reused entry
reports `registered` status, and the second register/evict pass is a
no-op, so the full `Worker.SetMetrics` is idempotent. -/
theorem setMetrics_idempotent (q : Query) (st : RegState) (recs : Records) (st1 : RegState)
    (fw : FW) (hnd : (st.result.map Prod.fst).Nodup)
    (h : SetMetrics q st recs = (st1, .ok fw)) :
    ∃ fw2, SetMetrics q (RegisterMetrics st1 fw) recs = (RegisterMetrics st1 fw, .ok fw2) ∧
      (∀ p ∈ fw2, p.2 = MetricStatus.registered) ∧
      RegisterMetrics (RegisterMetrics st1 fw) fw2 = RegisterMetrics st1 fw ∧
      WorkerSetMetrics q (RegisterMetrics st1 fw) recs = RegisterMetrics st1 fw := by
  obtain ⟨as1, hrc, hst1, hfw, hchk1, hchk2⟩ := setMetrics_ok_runActs q st recs st1 fw h
  have hfwkeys : ∀ k, (lookupAL fw k).isSome ↔ k ∈ as1.map Act.key := by
    intro k
    rw [hfw, runActs_fw_isSome]
    simp [lookupAL]
  have hst1keys : ∀ k, k ∈ as1.map Act.key → (lookupAL st1.result k).isSome := by
    intro k hk
    rw [hst1, runActs_result_isSome]
    exact Or.inr hk
  have hst2result : (RegisterMetrics st1 fw).result =
      st1.result.filter (fun p => (lookupAL fw p.1).isSome) := rfl
  have hst2lookup : ∀ k, lookupAL (RegisterMetrics st1 fw).result k =
      if (lookupAL fw k).isSome then lookupAL st1.result k else none := by
    intro k
    rw [hst2result, lookupAL_filter_key st1.result (fun key => (lookupAL fw key).isSome) k]
  have hallpres : ∀ k, k ∈ as1.map Act.key →
      (lookupAL (RegisterMetrics st1 fw).result k).isSome := by
    intro k hk
    rw [hst2lookup k, if_pos ((hfwkeys k).mpr hk)]
    exact hst1keys k hk
  have hrun2 : runActs (RegisterMetrics st1 fw) [] as1 =
      (applyWrites (RegisterMetrics st1 fw) as1, regAll [] as1) :=
    runActs_all_present as1 (RegisterMetrics st1 fw) [] hallpres
  have hnd1 : (st1.result.map Prod.fst).Nodup := by
    rw [hst1]
    exact runActs_nodup as1 st [] hnd
  have hid : applyWrites (RegisterMetrics st1 fw) as1 = RegisterMetrics st1 fw := by
    apply applyWrites_id
    intro p hp x hlast
    have hp1 : p ∈ st1.result := by
      rw [hst2result] at hp
      exact List.mem_of_mem_filter hp
    have hlook : lookupAL st1.result p.1 = some p.2 :=
      lookupAL_of_mem_nodup st1.result p hnd1 hp1
    obtain ⟨g, hg, hgv⟩ := runActs_value as1 st [] p.1 x hlast
    rw [← hst1] at hg
    rw [hlook] at hg
    cases hg
    exact hgv
  have hsm2 : SetMetrics q (RegisterMetrics st1 fw) recs =
      (RegisterMetrics st1 fw, .ok (regAll [] as1)) := by
    unfold SetMetrics
    rw [if_neg hchk1, if_neg hchk2]
    rw [processRows_eq_runActs q _ _ recs as1 (RegisterMetrics st1 fw) [] hrc]
    rw [hrun2, hid]
  have hreg : ∀ p ∈ regAll ([] : FW) as1, p.2 = MetricStatus.registered :=
    regAll_entries as1 [] (by intro p hp; cases hp)
  have hfw2reg : ∀ k, k ∈ as1.map Act.key →
      lookupAL (regAll [] as1) k = some MetricStatus.registered := by
    intro k hk
    have hs : (lookupAL (regAll ([] : FW) as1) k).isSome := by
      rw [regAll_isSome]
      exact Or.inl hk
    rcases h0 : lookupAL (regAll ([] : FW) as1) k with _ | s
    · rw [h0] at hs; cases hs
    · have := hreg (k, s) (lookupAL_mem _ _ _ h0)
      simp only at this
      rw [this]
  have hmemkeys : ∀ p ∈ (RegisterMetrics st1 fw).result, p.1 ∈ as1.map Act.key := by
    intro p hp
    rw [hst2result] at hp
    exact (hfwkeys p.1).mp (List.mem_filter.mp hp).2
  have hrm2 : RegisterMetrics (RegisterMetrics st1 fw) (regAll [] as1) =
      RegisterMetrics st1 fw := by
    have hres : (RegisterMetrics st1 fw).result.filter
        (fun p => (lookupAL (regAll [] as1) p.1).isSome) = (RegisterMetrics st1 fw).result := by
      rw [List.filter_eq_self]
      intro p hp
      rw [hfw2reg p.1 (hmemkeys p hp)]
      rfl
    have hpub1 : (RegisterMetrics st1 fw).published.filter
        (fun k => !((lookupAL (RegisterMetrics st1 fw).result k).isSome &&
          (lookupAL (regAll [] as1) k).isNone)) = (RegisterMetrics st1 fw).published := by
      rw [List.filter_eq_self]
      intro k _
      rcases h0 : lookupAL (RegisterMetrics st1 fw).result k with _ | g
      · rfl
      · have hk : k ∈ as1.map Act.key := by
          have := hmemkeys (k, g) (lookupAL_mem _ _ _ h0)
          simpa using this
        rw [hfw2reg k hk]
        rfl
    have hpub2 : (RegisterMetrics st1 fw).result.filter
        (fun p => lookupAL (regAll [] as1) p.1 == some MetricStatus.unregistered) = [] := by
      rw [List.filter_eq_nil_iff]
      intro p hp
      rw [hfw2reg p.1 (hmemkeys p hp)]
      decide
    show (⟨_, _⟩ : RegState) = RegisterMetrics st1 fw
    rw [hres, hpub1, hpub2]
    simp only [List.map_nil, List.reverse_nil, List.append_nil]
  refine ⟨regAll [] as1, hsm2, hreg, hrm2, ?_⟩
  unfold WorkerSetMetrics
  rw [hsm2]
  exact hrm2

/-- Witness for C2: applying the two-facet record set to the empty registry
and re-applying it is a no-op the second time. -/
theorem setMetrics_idempotent_witness :
    ((exEmpty.result.map Prod.fst).Nodup ∧
      SetMetrics exQuery exEmpty exRecsAB =
        ((SetMetrics exQuery exEmpty exRecsAB).1,
          .ok ((SetMetrics exQuery exEmpty exRecsAB).2.toOption.getD []))) ∧
    (∃ fw2, SetMetrics exQuery
        (RegisterMetrics (SetMetrics exQuery exEmpty exRecsAB).1
          ((SetMetrics exQuery exEmpty exRecsAB).2.toOption.getD [])) exRecsAB =
        (RegisterMetrics (SetMetrics exQuery exEmpty exRecsAB).1
          ((SetMetrics exQuery exEmpty exRecsAB).2.toOption.getD []), .ok fw2) ∧
      (∀ p ∈ fw2, p.2 = MetricStatus.registered) ∧
      RegisterMetrics (RegisterMetrics (SetMetrics exQuery exEmpty exRecsAB).1
          ((SetMetrics exQuery exEmpty exRecsAB).2.toOption.getD [])) fw2 =
        RegisterMetrics (SetMetrics exQuery exEmpty exRecsAB).1
          ((SetMetrics exQuery exEmpty exRecsAB).2.toOption.getD []) ∧
      WorkerSetMetrics exQuery (RegisterMetrics (SetMetrics exQuery exEmpty exRecsAB).1
          ((SetMetrics exQuery exEmpty exRecsAB).2.toOption.getD [])) exRecsAB =
        RegisterMetrics (SetMetrics exQuery exEmpty exRecsAB).1
          ((SetMetrics exQuery exEmpty exRecsAB).2.toOption.getD [])) :=
  ⟨⟨by decide, by with_unfolding_all decide⟩,
    setMetrics_idempotent exQuery exEmpty exRecsAB
      (SetMetrics exQuery exEmpty exRecsAB).1
      ((SetMetrics exQuery exEmpty exRecsAB).2.toOption.getD [])
      (by decide) (by with_unfolding_all decide)⟩

/-! ### Canonical facet form: determinism of the series-key encoding -/

theorem lookupAL_dedup {β : Type} (f : List (String × β)) (k : String) :
    lookupAL (dedupKeysAL f) k = lookupAL f k := by
  induction f with
  | nil => rfl
  | cons p rest ih =>
    obtain ⟨k0, v0⟩ := p
    simp only [dedupKeysAL, lookupAL]
    by_cases hk : k0 = k
    · rw [if_pos hk, if_pos hk]
    · rw [if_neg hk, if_neg hk, ← ih,
        lookupAL_filter_key (dedupKeysAL rest) (fun key => !(key == k0)) k]
      have hb : (k == k0) = false := by
        simp only [beq_eq_false_iff_ne]
        exact fun h1 => hk h1.symm
      simp [hb]

theorem dedup_nodup {β : Type} (f : List (String × β)) :
    ((dedupKeysAL f).map Prod.fst).Nodup := by
  induction f with
  | nil => simp [dedupKeysAL]
  | cons p rest ih =>
    obtain ⟨k0, v0⟩ := p
    simp only [dedupKeysAL, List.map_cons, List.nodup_cons]
    constructor
    · intro hmem
      obtain ⟨q0, hq, hqk⟩ := List.mem_map.mp hmem
      have := (List.mem_filter.mp hq).2
      rw [hqk] at this
      simp at this
    · have hsub : ((dedupKeysAL rest).filter (fun p => !(p.1 == k0))).map Prod.fst |>.Sublist
          ((dedupKeysAL rest).map Prod.fst) :=
        List.Sublist.map Prod.fst (List.filter_sublist _)
      exact hsub.nodup ih

theorem canonFacet_perm (f : List (String × Val)) : (canonFacet f).Perm f :=
  List.perm_insertionSort _ f

theorem canonFacet_sorted (f : List (String × Val)) :
    List.Sorted (fun a b : String × Val => a.1 ≤ b.1) (canonFacet f) :=
  List.sorted_insertionSort _ f

theorem lookupAL_perm {β : Type} (l1 l2 : List (String × β)) (hp : l1.Perm l2)
    (hnd : (l1.map Prod.fst).Nodup) (k : String) : lookupAL l1 k = lookupAL l2 k := by
  have hnd2 : (l2.map Prod.fst).Nodup := ((hp.map Prod.fst).nodup_iff).mp hnd
  rcases h1 : lookupAL l1 k with _ | v
  · rcases h2 : lookupAL l2 k with _ | v2
    · rfl
    · exfalso
      have hm2 : (k, v2) ∈ l2 := lookupAL_mem _ _ _ h2
      have hm1 : (k, v2) ∈ l1 := hp.symm.subset hm2
      rw [lookupAL_of_mem_nodup l1 (k, v2) hnd hm1] at h1
      cases h1
  · have hm1 : (k, v) ∈ l1 := lookupAL_mem _ _ _ h1
    have hm2 : (k, v) ∈ l2 := hp.subset hm1
    exact (lookupAL_of_mem_nodup l2 (k, v) hnd2 hm2).symm

theorem sorted_strict_of_le_nodup (l : List (String × Val))
    (hs : List.Sorted (fun a b : String × Val => a.1 ≤ b.1) l)
    (hnd : (l.map Prod.fst).Nodup) :
    List.Pairwise (fun a b : String × Val => a.1 < b.1) l := by
  have hne : List.Pairwise (fun a b : String × Val => a.1 ≠ b.1) l := by
    have hpw : List.Pairwise (fun a b : String => a ≠ b) (l.map Prod.fst) := hnd
    exact List.pairwise_map.mp hpw
  exact hs.imp₂ (fun a b hle hne0 => lt_of_le_of_ne hle hne0) hne

theorem sorted_lookup_ext : ∀ (l1 l2 : List (String × Val)),
    List.Pairwise (fun a b : String × Val => a.1 < b.1) l1 →
    List.Pairwise (fun a b : String × Val => a.1 < b.1) l2 →
    (∀ k, lookupAL l1 k = lookupAL l2 k) → l1 = l2 := by
  intro l1
  induction l1 with
  | nil =>
    intro l2 _ _ hext
    cases l2 with
    | nil => rfl
    | cons p t =>
      obtain ⟨k, v⟩ := p
      have := hext k
      simp [lookupAL] at this
  | cons p1 t1 ih =>
    intro l2 hs1 hs2 hext
    obtain ⟨k1, v1⟩ := p1
    cases l2 with
    | nil =>
      have := hext k1
      simp [lookupAL] at this
    | cons p2 t2 =>
      obtain ⟨k2, v2⟩ := p2
      have hl1 : lookupAL ((k1, v1) :: t1) k1 = some v1 := by simp [lookupAL]
      have hl2 : lookupAL ((k2, v2) :: t2) k2 = some v2 := by simp [lookupAL]
      have hk12 : k2 ≤ k1 := by
        have h2 := (hext k1).symm.trans hl1
        by_cases hk : k2 = k1
        · exact le_of_eq hk
        · simp only [lookupAL, if_neg hk] at h2
          have hm := lookupAL_mem _ _ _ h2
          have := (List.pairwise_cons.mp hs2).1 _ hm
          exact le_of_lt this
      have hk21 : k1 ≤ k2 := by
        have h1 := (hext k2).trans hl2
        by_cases hk : k1 = k2
        · exact le_of_eq hk
        · simp only [lookupAL, if_neg hk] at h1
          have hm := lookupAL_mem _ _ _ h1
          have := (List.pairwise_cons.mp hs1).1 _ hm
          exact le_of_lt this
      have hkeq : k1 = k2 := le_antisymm hk21 hk12
      subst hkeq
      have hveq : v1 = v2 := by
        have := (hext k1).symm.trans hl1
        simp only [lookupAL, if_pos rfl] at this
        cases this
        rfl
      subst hveq
      have hext2 : ∀ k, lookupAL t1 k = lookupAL t2 k := by
        intro k
        by_cases hk : k = k1
        · subst hk
          have hn1 : lookupAL t1 k = none := by
            rcases h0 : lookupAL t1 k with _ | v0
            · rfl
            · have hm := lookupAL_mem _ _ _ h0
              have := (List.pairwise_cons.mp hs1).1 _ hm
              simp at this
          have hn2 : lookupAL t2 k = none := by
            rcases h0 : lookupAL t2 k with _ | v0
            · rfl
            · have hm := lookupAL_mem _ _ _ h0
              have := (List.pairwise_cons.mp hs2).1 _ hm
              simp at this
          rw [hn1, hn2]
        · have := hext k
          simp only [lookupAL, if_neg (fun h0 : k1 = k => hk h0.symm)] at this
          exact this
      rw [ih t2 (List.pairwise_cons.mp hs1).2 (List.pairwise_cons.mp hs2).2 hext2]

/-- Facets with the same map extension have the same canonical form. -/
theorem canonFacet_ext (f1 f2 : List (String × Val))
    (hext : ∀ k, lookupAL f1 k = lookupAL f2 k) :
    canonFacet (dedupKeysAL f1) = canonFacet (dedupKeysAL f2) := by
  have hnd1 := dedup_nodup f1
  have hnd2 := dedup_nodup f2
  have hcnd1 : ((canonFacet (dedupKeysAL f1)).map Prod.fst).Nodup :=
    (((canonFacet_perm (dedupKeysAL f1)).map Prod.fst).nodup_iff).mpr hnd1
  have hcnd2 : ((canonFacet (dedupKeysAL f2)).map Prod.fst).Nodup :=
    (((canonFacet_perm (dedupKeysAL f2)).map Prod.fst).nodup_iff).mpr hnd2
  apply sorted_lookup_ext
  · exact sorted_strict_of_le_nodup _ (canonFacet_sorted _) hcnd1
  · exact sorted_strict_of_le_nodup _ (canonFacet_sorted _) hcnd2
  · intro k
    rw [lookupAL_perm _ _ (canonFacet_perm (dedupKeysAL f1)) hcnd1 k,
      lookupAL_perm _ _ (canonFacet_perm (dedupKeysAL f2)) hcnd2 k,
      lookupAL_dedup, lookupAL_dedup]
    exact hext k

/-- Facets with the same map extension encode identically. -/
theorem encodeFacetChars_ext (f1 f2 : List (String × Val))
    (hext : ∀ k, lookupAL f1 k = lookupAL f2 k) :
    encodeFacetChars f1 = encodeFacetChars f2 := by
  unfold encodeFacetChars
  rw [canonFacet_ext f1 f2 hext]

/-! ### Injectivity of the JSON string escaping -/

theorem hexVal_hexDigitChar (n : Nat) (h : n < 16) : hexVal (hexDigitChar n) = n := by
  interval_cases n <;> decide

theorem decodeOneChar_escChar (c : Char) (R : List Char) :
    decodeOneChar (escChar c ++ R) = some (c, R) := by
  unfold escChar
  by_cases h1 : c = '"'
  · subst h1; rw [if_pos rfl]; rfl
  · rw [if_neg h1]
    by_cases h2 : c = '\\'
    · subst h2; rw [if_pos rfl]; rfl
    · rw [if_neg h2]
      by_cases h3 : c = '\n'
      · subst h3; rw [if_pos rfl]; rfl
      · rw [if_neg h3]
        by_cases h4 : c = '\r'
        · subst h4; rw [if_pos rfl]; rfl
        · rw [if_neg h4]
          by_cases h5 : c = '\t'
          · subst h5; rw [if_pos rfl]; rfl
          · rw [if_neg h5]
            by_cases h6 : c = '<' ∨ c = '>' ∨ c = '&' ∨ c.toNat < 32
            · rw [if_pos h6]
              have hlt : c.toNat < 256 := by
                rcases h6 with h | h | h | h
                · subst h; decide
                · subst h; decide
                · subst h; decide
                · omega
              have hdiv : c.toNat / 16 < 16 := by omega
              have hmod : c.toNat % 16 < 16 := by omega
              show some (Char.ofNat (hexVal '0' * 4096 + hexVal '0' * 256 +
                hexVal (hexDigitChar (c.toNat / 16)) * 16 +
                hexVal (hexDigitChar (c.toNat % 16))), R) = some (c, R)
              rw [hexVal_hexDigitChar _ hdiv, hexVal_hexDigitChar _ hmod]
              have hv0 : hexVal '0' = 0 := by decide
              rw [hv0]
              have harith : 0 * 4096 + 0 * 256 + c.toNat / 16 * 16 + c.toNat % 16 = c.toNat := by
                omega
              rw [harith, Char.ofNat_toNat]
            · rw [if_neg h6]
              by_cases h7 : c.toNat = 8232 ∨ c.toNat = 8233
              · rw [if_pos h7]
                have hmod : c.toNat % 16 < 16 := by omega
                show some (Char.ofNat (hexVal '2' * 4096 + hexVal '0' * 256 +
                  hexVal '2' * 16 + hexVal (hexDigitChar (c.toNat % 16))), R) = some (c, R)
                rw [hexVal_hexDigitChar _ hmod]
                have hv2 : hexVal '2' = 2 := by decide
                have hv0 : hexVal '0' = 0 := by decide
                rw [hv2, hv0]
                have harith : 2 * 4096 + 0 * 256 + 2 * 16 + c.toNat % 16 = c.toNat := by
                  rcases h7 with h | h <;> omega
                rw [harith, Char.ofNat_toNat]
              · rw [if_neg h7]
                show decodeOneChar (c :: R) = some (c, R)
                unfold decodeOneChar
                split
                · rename_i heq
                  cases heq
                  cases h2 rfl
                · rename_i heq
                  cases heq
                  cases h2 rfl
                · rename_i heq
                  cases heq
                  cases h2 rfl
                · rename_i heq
                  cases heq
                  cases h2 rfl
                · rename_i heq
                  cases heq
                  cases h2 rfl
                · rename_i heq
                  cases heq
                  cases h2 rfl
                · rename_i heq
                  injection heq with he1 he2
                  cases h1 he1
                · rename_i heq
                  injection heq with ha hb
                  rw [← ha, ← hb]
                · rename_i heq
                  cases heq

theorem escChar_length_pos (c : Char) : 0 < (escChar c).length := by
  unfold escChar
  by_cases h1 : c = '"'
  · simp [h1]
  · rw [if_neg h1]
    by_cases h2 : c = '\\'
    · simp [h2]
    · rw [if_neg h2]
      by_cases h3 : c = '\n'
      · simp [h3]
      · rw [if_neg h3]
        by_cases h4 : c = '\r'
        · simp [h4]
        · rw [if_neg h4]
          by_cases h5 : c = '\t'
          · simp [h5]
          · rw [if_neg h5]
            by_cases h6 : c = '<' ∨ c = '>' ∨ c = '&' ∨ c.toNat < 32
            · simp [h6]
            · rw [if_neg h6]
              by_cases h7 : c.toNat = 8232 ∨ c.toNat = 8233
              · simp [h7]
              · simp [h7]

theorem escChar_head (c : Char) : ∃ d es, escChar c = d :: es ∧ ¬d = '"' := by
  unfold escChar
  by_cases h1 : c = '"'
  · rw [if_pos h1]; exact ⟨'\\', _, rfl, by decide⟩
  · rw [if_neg h1]
    by_cases h2 : c = '\\'
    · rw [if_pos h2]; exact ⟨'\\', _, rfl, by decide⟩
    · rw [if_neg h2]
      by_cases h3 : c = '\n'
      · rw [if_pos h3]; exact ⟨'\\', _, rfl, by decide⟩
      · rw [if_neg h3]
        by_cases h4 : c = '\r'
        · rw [if_pos h4]; exact ⟨'\\', _, rfl, by decide⟩
        · rw [if_neg h4]
          by_cases h5 : c = '\t'
          · rw [if_pos h5]; exact ⟨'\\', _, rfl, by decide⟩
          · rw [if_neg h5]
            by_cases h6 : c = '<' ∨ c = '>' ∨ c = '&' ∨ c.toNat < 32
            · rw [if_pos h6]; exact ⟨'\\', _, rfl, by decide⟩
            · rw [if_neg h6]
              by_cases h7 : c.toNat = 8232 ∨ c.toNat = 8233
              · rw [if_pos h7]; exact ⟨'\\', _, rfl, by decide⟩
              · rw [if_neg h7]; exact ⟨c, [], rfl, h1⟩

theorem decodeStrBody_round : ∀ (s : List Char) (R : List Char) (fuel : Nat),
    (s.flatMap escChar).length + 1 ≤ fuel →
    decodeStrBody fuel (s.flatMap escChar ++ '"' :: R) = some (s, R) := by
  intro s
  induction s with
  | nil =>
    intro R fuel hf
    cases fuel with
    | zero => simp at hf
    | succ f => rfl
  | cons c t ih =>
    intro R fuel hf
    rw [List.flatMap_cons] at hf ⊢
    cases fuel with
    | zero =>
      exfalso
      have := escChar_length_pos c
      simp only [List.length_append] at hf
      omega
    | succ f =>
      obtain ⟨d, es, hdc, hdq⟩ := escChar_head c
      rw [List.append_assoc, hdc]
      show decodeStrBody (f + 1) (d :: (es ++ (t.flatMap escChar ++ '"' :: R))) = _
      unfold decodeStrBody
      split
      · rename_i rest0 heq
        injection heq with hh1 hh2
        exact absurd hh1 hdq
      · have hdec : decodeOneChar (d :: (es ++ (t.flatMap escChar ++ '"' :: R))) =
            some (c, t.flatMap escChar ++ '"' :: R) := by
          have h0 := decodeOneChar_escChar c (t.flatMap escChar ++ '"' :: R)
          rw [hdc] at h0
          rw [show d :: (es ++ (t.flatMap escChar ++ '"' :: R)) =
            (d :: es) ++ (t.flatMap escChar ++ '"' :: R) from rfl]
          exact h0
        rw [hdec]
        show (match decodeStrBody f (t.flatMap escChar ++ '"' :: R) with
          | none => none
          | some (s, r2) => some (c :: s, r2)) = some (c :: t, R)
        have hih := ih R f (by
          have hlc := escChar_length_pos c
          simp only [List.length_append] at hf
          omega)
        rw [hih]

/-- Escaped string bodies are self-delimiting: two escaped bodies followed
by closing quotes that agree as character lists agree piecewise. -/
theorem escBody_det (s1 s2 : List Char) (R1 R2 : List Char)
    (h : s1.flatMap escChar ++ '"' :: R1 = s2.flatMap escChar ++ '"' :: R2) :
    s1 = s2 ∧ R1 = R2 := by
  have hlen : (s1.flatMap escChar ++ '"' :: R1).length =
      (s2.flatMap escChar ++ '"' :: R2).length := by rw [h]
  have hf1 := decodeStrBody_round s1 R1
    ((s2.flatMap escChar ++ '"' :: R2).length + 1)
    (by rw [← hlen]; simp only [List.length_append]; omega)
  have hf2 := decodeStrBody_round s2 R2
    ((s2.flatMap escChar ++ '"' :: R2).length + 1)
    (by simp only [List.length_append]; omega)
  rw [h] at hf1
  rw [hf1] at hf2
  injection hf2 with h0
  injection h0 with h1 h2
  exact ⟨h1, h2⟩

/-- The Go JSON string escaping is injective. -/
theorem escString_inj (a b : String) (h : escString a = escString b) : a = b := by
  unfold escString at h
  injection h with h1 h2
  have h3 : a.data.flatMap escChar ++ '"' :: [] = b.data.flatMap escChar ++ '"' :: [] := h2
  obtain ⟨hd, -⟩ := escBody_det a.data b.data [] [] h3
  cases a
  cases b
  simp only at hd
  rw [hd]

/-! ### Injectivity of the decimal renderings -/

theorem digitChar_toNat (n : Nat) (h : n < 10) : (digitChar n).toNat = 48 + n := by
  interval_cases n <;> decide

theorem digitChar_isDigit (n : Nat) (h : n < 10) : (digitChar n).isDigit = true := by
  interval_cases n <;> decide

theorem natDigitsFuel_digits : ∀ (fuel n : Nat) (c : Char),
    c ∈ natDigitsFuel fuel n → c.isDigit = true := by
  intro fuel
  induction fuel with
  | zero => intro n c hc; cases hc
  | succ f ih =>
    intro n c hc
    unfold natDigitsFuel at hc
    by_cases hn : n < 10
    · rw [if_pos hn] at hc
      simp only [List.mem_singleton] at hc
      rw [hc]
      exact digitChar_isDigit n hn
    · rw [if_neg hn] at hc
      rcases List.mem_append.mp hc with h1 | h2
      · exact ih _ c h1
      · simp only [List.mem_singleton] at h2
        rw [h2]
        exact digitChar_isDigit _ (Nat.mod_lt _ (by omega))

theorem natDigits_digits (n : Nat) (c : Char) (hc : c ∈ natDigits n) : c.isDigit = true :=
  natDigitsFuel_digits (n + 1) n c hc

theorem digitsVal_from (ds : List Char) : ∀ (i : Nat),
    ds.foldl (fun a c => a * 10 + (c.toNat - 48)) i = i * 10 ^ ds.length + digitsVal ds := by
  induction ds with
  | nil => intro i; simp [digitsVal]
  | cons c t ih =>
    intro i
    show t.foldl _ (i * 10 + (c.toNat - 48)) = _
    rw [ih (i * 10 + (c.toNat - 48))]
    have hd : digitsVal (c :: t) = (c.toNat - 48) * 10 ^ t.length + digitsVal t := by
      show t.foldl _ (0 * 10 + (c.toNat - 48)) = _
      rw [ih (0 * 10 + (c.toNat - 48))]
      ring_nf
    rw [hd]
    simp only [List.length_cons]
    ring

theorem digitsVal_append (a b : List Char) :
    digitsVal (a ++ b) = digitsVal a * 10 ^ b.length + digitsVal b := by
  unfold digitsVal
  rw [List.foldl_append]
  exact digitsVal_from b (a.foldl _ 0)

theorem digitsVal_replicate_zero (z : Nat) : digitsVal (List.replicate z '0') = 0 := by
  induction z with
  | zero => rfl
  | succ m ih =>
    rw [List.replicate_succ]
    show List.foldl _ (0 * 10 + ('0'.toNat - 48)) (List.replicate m '0') = 0
    have : (0 : Nat) * 10 + ('0'.toNat - 48) = 0 := by decide
    rw [this]
    exact ih

theorem digitsVal_natDigitsFuel : ∀ (fuel n : Nat), n < 10 ^ fuel →
    digitsVal (natDigitsFuel fuel n) = n := by
  intro fuel
  induction fuel with
  | zero =>
    intro n h
    have hn0 : n = 0 := by simpa using h
    subst hn0
    rfl
  | succ f ih =>
    intro n h
    unfold natDigitsFuel
    by_cases hn : n < 10
    · rw [if_pos hn]
      show 0 * 10 + ((digitChar n).toNat - 48) = n
      rw [digitChar_toNat n hn]
      omega
    · rw [if_neg hn]
      rw [digitsVal_append]
      have hdiv : n / 10 < 10 ^ f := by
        rw [pow_succ] at h
        omega
      rw [ih _ hdiv]
      show n / 10 * 10 ^ (List.length [digitChar (n % 10)]) +
        (0 * 10 + ((digitChar (n % 10)).toNat - 48)) = n
      rw [digitChar_toNat _ (Nat.mod_lt _ (by omega))]
      simp only [List.length_singleton]
      omega

theorem digitsVal_natDigits (n : Nat) : digitsVal (natDigits n) = n := by
  unfold natDigits
  apply digitsVal_natDigitsFuel
  calc n < 10 ^ n := Nat.lt_pow_self (by omega) n
    _ ≤ 10 ^ (n + 1) := Nat.pow_le_pow_right (by omega) (by omega)

theorem natDigits_inj (n1 n2 : Nat) (h : natDigits n1 = natDigits n2) : n1 = n2 := by
  rw [← digitsVal_natDigits n1, ← digitsVal_natDigits n2, h]

theorem natDigits_ne_nil (n : Nat) : natDigits n ≠ [] := by
  unfold natDigits natDigitsFuel
  by_cases hn : n < 10
  · rw [if_pos hn]
    intro h
    cases h
  · rw [if_neg hn]
    intro h
    rcases List.append_eq_nil.mp h with ⟨-, h2⟩
    cases h2

/-- Generic separator splitting: a separator-free prefix followed by the
separator is uniquely determined. -/
theorem append_sep_det (sep : Char) : ∀ (X1 X2 S1 S2 : List Char),
    (∀ c ∈ X1, ¬c = sep) → (∀ c ∈ X2, ¬c = sep) →
    X1 ++ sep :: S1 = X2 ++ sep :: S2 → X1 = X2 ∧ S1 = S2 := by
  intro X1
  induction X1 with
  | nil =>
    intro X2 S1 S2 _ h2 h
    cases X2 with
    | nil =>
      simp only [List.nil_append] at h
      injection h with _ hb
      exact ⟨rfl, hb⟩
    | cons d t =>
      simp only [List.nil_append, List.cons_append] at h
      injection h with ha hb
      exact absurd ha.symm (h2 d (List.mem_cons_self d t))
  | cons c t ih =>
    intro X2 S1 S2 h1 h2 h
    cases X2 with
    | nil =>
      simp only [List.cons_append, List.nil_append] at h
      injection h with ha hb
      exact absurd ha (h1 c (List.mem_cons_self c t))
    | cons d u =>
      simp only [List.cons_append] at h
      injection h with ha hb
      obtain ⟨hx, hs⟩ := ih u S1 S2 (fun c0 hc0 => h1 c0 (List.mem_cons_of_mem c hc0))
        (fun c0 hc0 => h2 c0 (List.mem_cons_of_mem d hc0)) hb
      exact ⟨by rw [ha, hx], hs⟩

theorem isDigit_ne_dot (c : Char) (h : c.isDigit = true) : ¬c = '.' := by
  intro hc
  rw [hc] at h
  cases h

theorem isDigit_ne_slash (c : Char) (h : c.isDigit = true) : ¬c = '/' := by
  intro hc
  rw [hc] at h
  cases h

theorem findDecExp_dvd (den k : Nat) (h : findDecExp den = some k) : den ∣ 10 ^ k := by
  unfold findDecExp at h
  have hp := List.find?_some h
  simp only [beq_iff_eq] at hp
  exact Nat.dvd_of_mod_eq_zero hp

theorem decExp_value (q : Rat) (hq : 0 ≤ q) (k : Nat) (hdvd : q.den ∣ 10 ^ k) :
    ((q.num.natAbs * (10 ^ k / q.den) : ℕ) : ℚ) = q * 10 ^ k := by
  have hd0 : (q.den : ℚ) ≠ 0 := by
    have hp := q.pos
    positivity
  have hnum : ((q.num.natAbs : ℕ) : ℚ) = (q.num : ℚ) := by
    rw [Int.cast_natAbs]
    exact_mod_cast congrArg (fun z : ℤ => (z : ℚ)) (abs_of_nonneg (Rat.num_nonneg.mpr hq))
  rw [Nat.cast_mul, Nat.cast_div hdvd hd0, hnum]
  conv_rhs => rw [← Rat.num_div_den q]
  push_cast
  field_simp

theorem padDigits_digits (k : Nat) (ds : List Char) (h : ∀ c ∈ ds, c.isDigit = true) :
    ∀ c ∈ padDigits k ds, c.isDigit = true := by
  intro c hc
  unfold padDigits at hc
  by_cases hlen : ds.length ≤ k
  · rw [if_pos hlen] at hc
    rcases List.mem_append.mp hc with h1 | h2
    · rw [List.eq_of_mem_replicate h1]
      decide
    · exact h c h2
  · rw [if_neg hlen] at hc
    exact h c hc

theorem padDigits_length (k : Nat) (ds : List Char) (h : ds ≠ []) :
    k + 1 ≤ (padDigits k ds).length := by
  unfold padDigits
  have hpos : 0 < ds.length := List.length_pos.mpr h
  by_cases hlen : ds.length ≤ k
  · rw [if_pos hlen, List.length_append, List.length_replicate]
    omega
  · rw [if_neg hlen]
    omega

theorem padDigits_val (k : Nat) (ds : List Char) :
    digitsVal (padDigits k ds) = digitsVal ds := by
  unfold padDigits
  by_cases hlen : ds.length ≤ k
  · rw [if_pos hlen, digitsVal_append, digitsVal_replicate_zero]
    ring
  · rw [if_neg hlen]

theorem scaledDigits_facts (q : Rat) (k : Nat) :
    (∀ c ∈ scaledDigits q k, c.isDigit = true) ∧ k + 1 ≤ (scaledDigits q k).length ∧
    digitsVal (scaledDigits q k) = q.num.natAbs * (10 ^ k / q.den) := by
  refine ⟨padDigits_digits k _ (natDigits_digits _), padDigits_length k _ (natDigits_ne_nil _),
    ?_⟩
  unfold scaledDigits
  rw [padDigits_val]
  exact digitsVal_natDigits _

theorem decChars_some_pos (q : Rat) (k : Nat) (hk : findDecExp q.den = some k)
    (hkpos : ¬k = 0) :
    ∃ A B, decChars q = A ++ '.' :: B ∧ (∀ c ∈ A, c.isDigit = true) ∧
      (∀ c ∈ B, c.isDigit = true) ∧ A ≠ [] ∧ B.length = k ∧
      digitsVal (A ++ B) = q.num.natAbs * (10 ^ k / q.den) := by
  obtain ⟨hdig, hlen, hval⟩ := scaledDigits_facts q k
  refine ⟨(scaledDigits q k).take ((scaledDigits q k).length - k),
    (scaledDigits q k).drop ((scaledDigits q k).length - k), ?_, ?_, ?_, ?_, ?_, ?_⟩
  · unfold decChars
    rw [hk]
    show (if k = 0 then _ else _) = _
    rw [if_neg hkpos]
  · intro c hc
    exact hdig c (List.mem_of_mem_take hc)
  · intro c hc
    exact hdig c (List.mem_of_mem_drop hc)
  · intro h0
    have hlt := congrArg List.length h0
    rw [List.length_take] at hlt
    simp only [List.length_nil] at hlt
    omega
  · rw [List.length_drop]
    omega
  · rw [List.take_append_drop]
    exact hval

theorem decChars_some_zero (q : Rat) (hk : findDecExp q.den = some 0) :
    decChars q = natDigits q.num.natAbs ∧ q.den = 1 := by
  have hdvd := findDecExp_dvd q.den 0 hk
  rw [pow_zero] at hdvd
  have hden1 : q.den = 1 := Nat.dvd_one.mp hdvd
  constructor
  · unfold decChars
    rw [hk]
    show (if 0 = 0 then natDigits (q.num.natAbs * (10 ^ 0 / q.den)) else _) = _
    rw [if_pos rfl, hden1]
    norm_num
  · exact hden1

theorem decChars_none (q : Rat) (hk : findDecExp q.den = none) :
    decChars q = natDigits q.num.natAbs ++ '/' :: natDigits q.den := by
  unfold decChars
  rw [hk]

theorem decChars_no_slash (q : Rat) (k : Nat) (hk : findDecExp q.den = some k) :
    ('/' : Char) ∉ decChars q := by
  by_cases hk0 : k = 0
  · subst hk0
    rw [(decChars_some_zero q hk).1]
    intro hmem
    have := natDigits_digits _ _ hmem
    cases this
  · obtain ⟨A, B, hAB, hA, hB, -, -, -⟩ := decChars_some_pos q k hk hk0
    rw [hAB]
    intro hmem
    rcases List.mem_append.mp hmem with h1 | h2
    · exact isDigit_ne_slash _ (hA _ h1) rfl
    · rcases List.mem_cons.mp h2 with h3 | h4
      · cases h3
      · exact isDigit_ne_slash _ (hB _ h4) rfl

theorem decChars_zero_no_dot (q : Rat) (hk : findDecExp q.den = some 0) :
    ('.' : Char) ∉ decChars q := by
  rw [(decChars_some_zero q hk).1]
  intro hm
  exact isDigit_ne_dot _ (natDigits_digits _ _ hm) rfl

theorem decChars_pos_dot (q : Rat) (k : Nat) (hk : findDecExp q.den = some k)
    (hkpos : ¬k = 0) : ('.' : Char) ∈ decChars q := by
  obtain ⟨A, B, hAB, -, -, -, -, -⟩ := decChars_some_pos q k hk hkpos
  rw [hAB]
  exact List.mem_append.mpr (Or.inr (List.mem_cons_self _ _))

theorem decChars_inj (q1 q2 : Rat) (hq1 : 0 ≤ q1) (hq2 : 0 ≤ q2)
    (h : decChars q1 = decChars q2) : q1 = q2 := by
  rcases hk1 : findDecExp q1.den with _ | k1 <;> rcases hk2 : findDecExp q2.den with _ | k2
  · -- both fallback
    rw [decChars_none q1 hk1, decChars_none q2 hk2] at h
    obtain ⟨hnum, htail⟩ := append_sep_det '/' _ _ _ _
      (fun c hc => isDigit_ne_slash c (natDigits_digits _ c hc))
      (fun c hc => isDigit_ne_slash c (natDigits_digits _ c hc)) h
    have hna : q1.num.natAbs = q2.num.natAbs := natDigits_inj _ _ hnum
    have hden : q1.den = q2.den := natDigits_inj _ _ htail
    have hnn1 : 0 ≤ q1.num := Rat.num_nonneg.mpr hq1
    have hnn2 : 0 ≤ q2.num := Rat.num_nonneg.mpr hq2
    have hnum2 : q1.num = q2.num := by omega
    exact Rat.ext hnum2 hden
  · -- fallback vs decimal: '/' membership contradiction
    exfalso
    have hmem : ('/' : Char) ∈ decChars q1 := by
      rw [decChars_none q1 hk1]
      exact List.mem_append.mpr (Or.inr (List.mem_cons_self _ _))
    rw [h] at hmem
    exact decChars_no_slash q2 k2 hk2 hmem
  · exfalso
    have hmem : ('/' : Char) ∈ decChars q2 := by
      rw [decChars_none q2 hk2]
      exact List.mem_append.mpr (Or.inr (List.mem_cons_self _ _))
    rw [← h] at hmem
    exact decChars_no_slash q1 k1 hk1 hmem
  · -- both decimal
    by_cases hz1 : k1 = 0 <;> by_cases hz2 : k2 = 0
    · subst hz1; subst hz2
      obtain ⟨he1, hd1⟩ := decChars_some_zero q1 hk1
      obtain ⟨he2, hd2⟩ := decChars_some_zero q2 hk2
      rw [he1, he2] at h
      have hna := natDigits_inj _ _ h
      have hnn1 : 0 ≤ q1.num := Rat.num_nonneg.mpr hq1
      have hnn2 : 0 ≤ q2.num := Rat.num_nonneg.mpr hq2
      exact Rat.ext (by omega) (hd1.trans hd2.symm)
    · exfalso
      subst hz1
      have hd := decChars_pos_dot q2 k2 hk2 hz2
      rw [← h] at hd
      exact decChars_zero_no_dot q1 hk1 hd
    · exfalso
      subst hz2
      have hd := decChars_pos_dot q1 k1 hk1 hz1
      rw [h] at hd
      exact decChars_zero_no_dot q2 hk2 hd
    · obtain ⟨A1, B1, hAB1, hA1, hB1, -, hBl1, hv1⟩ := decChars_some_pos q1 k1 hk1 hz1
      obtain ⟨A2, B2, hAB2, hA2, hB2, -, hBl2, hv2⟩ := decChars_some_pos q2 k2 hk2 hz2
      rw [hAB1, hAB2] at h
      obtain ⟨hAeq, hBeq⟩ := append_sep_det '.' _ _ _ _
        (fun c hc => isDigit_ne_dot c (hA1 _ hc)) (fun c hc => isDigit_ne_dot c (hA2 _ hc)) h
      have hkeq : k1 = k2 := by rw [← hBl1, ← hBl2, hBeq]
      have hneq : q1.num.natAbs * (10 ^ k1 / q1.den) = q2.num.natAbs * (10 ^ k2 / q2.den) := by
        rw [← hv1, ← hv2, hAeq, hBeq]
      have hval1 := decExp_value q1 hq1 k1 (findDecExp_dvd _ _ hk1)
      have hval2 := decExp_value q2 hq2 k2 (findDecExp_dvd _ _ hk2)
      have h10 : ((10 : ℚ) ^ k1) ≠ 0 := by positivity
      have : q1 * 10 ^ k1 = q2 * 10 ^ k1 := by
        rw [← hval1]
        rw [hkeq] at hneq ⊢
        rw [← hval2]
        exact_mod_cast congrArg (fun n : ℕ => (n : ℚ)) hneq
      exact mul_right_cancel₀ h10 this

theorem decChars_head_digit (q : Rat) : ∃ d t, decChars q = d :: t ∧ d.isDigit = true := by
  rcases hk : findDecExp q.den with _ | k
  · rw [decChars_none q hk]
    rcases hnd : natDigits q.num.natAbs with _ | ⟨d, t⟩
    · exact absurd hnd (natDigits_ne_nil _)
    · refine ⟨d, t ++ '/' :: natDigits q.den, rfl, ?_⟩
      exact natDigits_digits _ d (by rw [hnd]; exact List.mem_cons_self _ _)
  · by_cases hk0 : k = 0
    · subst hk0
      rw [(decChars_some_zero q hk).1]
      rcases hnd : natDigits q.num.natAbs with _ | ⟨d, t⟩
      · exact absurd hnd (natDigits_ne_nil _)
      · refine ⟨d, t, rfl, ?_⟩
        exact natDigits_digits _ d (by rw [hnd]; exact List.mem_cons_self _ _)
    · obtain ⟨A, B, hAB, hA, -, hAne, -, -⟩ := decChars_some_pos q k hk hk0
      rcases hA0 : A with _ | ⟨d, t⟩
      · exact absurd hA0 hAne
      · rw [hAB, hA0]
        refine ⟨d, t ++ '.' :: B, rfl, ?_⟩
        exact hA d (by rw [hA0]; exact List.mem_cons_self _ _)

set_option maxRecDepth 4000 in
/-- The Go float rendering is injective. -/
theorem encodeFloatChars_inj (q1 q2 : Rat) (h : encodeFloatChars q1 = encodeFloatChars q2) :
    q1 = q2 := by
  unfold encodeFloatChars at h
  by_cases h1 : q1 < 0 <;> by_cases h2 : q2 < 0
  · rw [if_pos h1, if_pos h2] at h
    injection h with _ hb
    have := decChars_inj (-q1) (-q2) (by linarith) (by linarith) hb
    linarith
  · exfalso
    rw [if_pos h1, if_neg h2] at h
    obtain ⟨d, t, hdt, hd⟩ := decChars_head_digit q2
    rw [hdt] at h
    injection h with ha _
    rw [← ha] at hd
    exact absurd hd (by decide)
  · exfalso
    rw [if_neg h1, if_pos h2] at h
    obtain ⟨d, t, hdt, hd⟩ := decChars_head_digit q1
    rw [hdt] at h
    injection h with ha _
    rw [ha] at hd
    exact absurd hd (by decide)
  · rw [if_neg h1, if_neg h2] at h
    exact decChars_inj q1 q2 (le_of_not_lt h1) (le_of_not_lt h2) h

/-! ### Self-delimitation of the JSON member encodings -/

theorem isDigit_ne_comma (c : Char) (h : c.isDigit = true) : ¬c = ',' := by
  intro hc
  rw [hc] at h
  cases h

theorem isDigit_ne_rbrace (c : Char) (h : c.isDigit = true) : ¬c = '\x7d' := by
  intro hc
  rw [hc] at h
  cases h

theorem decChars_chars (q : Rat) (c : Char) (hc : c ∈ decChars q) :
    c.isDigit = true ∨ c = '.' ∨ c = '/' := by
  rcases hk : findDecExp q.den with _ | k
  · rw [decChars_none q hk] at hc
    rcases List.mem_append.mp hc with h1 | h2
    · exact Or.inl (natDigits_digits _ _ h1)
    · rcases List.mem_cons.mp h2 with h3 | h4
      · exact Or.inr (Or.inr h3)
      · exact Or.inl (natDigits_digits _ _ h4)
  · by_cases hk0 : k = 0
    · subst hk0
      rw [(decChars_some_zero q hk).1] at hc
      exact Or.inl (natDigits_digits _ _ hc)
    · obtain ⟨A, B, hAB, hA, hB, -, -, -⟩ := decChars_some_pos q k hk hk0
      rw [hAB] at hc
      rcases List.mem_append.mp hc with h1 | h2
      · exact Or.inl (hA _ h1)
      · rcases List.mem_cons.mp h2 with h3 | h4
        · exact Or.inr (Or.inl h3)
        · exact Or.inl (hB _ h4)

theorem encodeFloatChars_not_delim (q : Rat) (c : Char) (hc : c ∈ encodeFloatChars q) :
    ¬c = ',' ∧ ¬c = '\x7d' := by
  have h : c.isDigit = true ∨ c = '.' ∨ c = '/' ∨ c = '-' := by
    unfold encodeFloatChars at hc
    split at hc
    · rcases List.mem_cons.mp hc with h1 | h2
      · exact Or.inr (Or.inr (Or.inr h1))
      · rcases decChars_chars _ _ h2 with h0 | h0 | h0
        · exact Or.inl h0
        · exact Or.inr (Or.inl h0)
        · exact Or.inr (Or.inr (Or.inl h0))
    · rcases decChars_chars _ _ hc with h0 | h0 | h0
      · exact Or.inl h0
      · exact Or.inr (Or.inl h0)
      · exact Or.inr (Or.inr (Or.inl h0))
  rcases h with h0 | h0 | h0 | h0
  · exact ⟨isDigit_ne_comma _ h0, isDigit_ne_rbrace _ h0⟩
  · subst h0; exact ⟨by decide, by decide⟩
  · subst h0; exact ⟨by decide, by decide⟩
  · subst h0; exact ⟨by decide, by decide⟩

theorem encodeFloatChars_head (q : Rat) :
    ∃ d t, encodeFloatChars q = d :: t ∧ (d = '-' ∨ d.isDigit = true) := by
  unfold encodeFloatChars
  split
  · exact ⟨'-', decChars (-q), rfl, Or.inl rfl⟩
  · obtain ⟨d, t, hdt, hd⟩ := decChars_head_digit q
    exact ⟨d, t, hdt, Or.inr hd⟩

/-- Segments free of the two object delimiters, each followed by a delimiter,
are read back unambiguously from the concatenation. -/
theorem append_delims_det : ∀ (A1 A2 : List Char) (d1 d2 : Char) (t1 t2 : List Char),
    (∀ c ∈ A1, ¬c = ',' ∧ ¬c = '\x7d') → (∀ c ∈ A2, ¬c = ',' ∧ ¬c = '\x7d') →
    (d1 = ',' ∨ d1 = '\x7d') → (d2 = ',' ∨ d2 = '\x7d') →
    A1 ++ d1 :: t1 = A2 ++ d2 :: t2 → A1 = A2 ∧ d1 = d2 ∧ t1 = t2 := by
  intro A1
  induction A1 with
  | nil =>
    intro A2 d1 d2 t1 t2 _ h2 hd1 _ h
    cases A2 with
    | nil =>
      simp only [List.nil_append] at h
      injection h with ha hb
      exact ⟨rfl, ha, hb⟩
    | cons e u =>
      simp only [List.nil_append, List.cons_append] at h
      injection h with ha _
      have he := h2 e (List.mem_cons_self e u)
      rcases hd1 with h0 | h0
      · rw [h0] at ha
        exact absurd ha.symm he.1
      · rw [h0] at ha
        exact absurd ha.symm he.2
  | cons c t ih =>
    intro A2 d1 d2 t1 t2 h1 h2 hd1 hd2 h
    cases A2 with
    | nil =>
      simp only [List.cons_append, List.nil_append] at h
      injection h with ha _
      have hc := h1 c (List.mem_cons_self c t)
      rcases hd2 with h0 | h0
      · rw [h0] at ha
        exact absurd ha hc.1
      · rw [h0] at ha
        exact absurd ha hc.2
    | cons e u =>
      simp only [List.cons_append] at h
      injection h with ha hb
      obtain ⟨hx, hd, ht⟩ := ih u d1 d2 t1 t2 (fun c0 hc0 => h1 c0 (List.mem_cons_of_mem c hc0))
        (fun c0 hc0 => h2 c0 (List.mem_cons_of_mem e hc0)) hd1 hd2 hb
      exact ⟨by rw [ha, hx], hd, ht⟩

theorem dedup_subset {β : Type} : ∀ (f : List (String × β)) (p : String × β),
    p ∈ dedupKeysAL f → p ∈ f := by
  intro f
  induction f with
  | nil =>
    intro p hp
    cases hp
  | cons q0 t ih =>
    intro p hp
    obtain ⟨k, v⟩ := q0
    simp only [dedupKeysAL] at hp
    rcases List.mem_cons.mp hp with h1 | h2
    · rw [h1]
      exact List.mem_cons_self _ _
    · exact List.mem_cons_of_mem _ (ih p (List.mem_of_mem_filter h2))

theorem insertAL_mem {β : Type} (l : List (String × β)) (k : String) (v : β) (p : String × β)
    (hp : p ∈ insertAL l k v) : p ∈ l ∨ p = (k, v) := by
  unfold insertAL at hp
  rcases List.mem_append.mp hp with h1 | h2
  · exact Or.inl (List.mem_of_mem_filter h1)
  · rcases List.mem_cons.mp h2 with h3 | h4
    · exact Or.inr h3
    · cases h4

/-- Two marshalled scalar values (neither a Go `int`), each followed by an
object delimiter, agree only when the values, delimiters and remainders
agree. -/
theorem encodeVal_det (v1 v2 : Val) (d1 d2 : Char) (X1 X2 : List Char)
    (hn1 : noIntVal v1 = true) (hn2 : noIntVal v2 = true)
    (hd1 : d1 = ',' ∨ d1 = '\x7d') (hd2 : d2 = ',' ∨ d2 = '\x7d')
    (h : encodeVal v1 ++ d1 :: X1 = encodeVal v2 ++ d2 :: X2) :
    v1 = v2 ∧ d1 = d2 ∧ X1 = X2 := by
  cases v1 with
  | vint n => cases hn1
  | vstr a =>
    cases v2 with
    | vint n => cases hn2
    | vstr b =>
      have h' : ('"' :: (a.data.flatMap escChar ++ ['"'])) ++ d1 :: X1 =
          ('"' :: (b.data.flatMap escChar ++ ['"'])) ++ d2 :: X2 := h
      simp only [List.cons_append, List.append_assoc, List.singleton_append] at h'
      injection h' with _ h'
      obtain ⟨hab, hR⟩ := escBody_det a.data b.data (d1 :: X1) (d2 :: X2) h'
      injection hR with hd hX
      refine ⟨?_, hd, hX⟩
      cases a
      cases b
      simp only at hab
      rw [hab]
    | vfloat q =>
      exfalso
      obtain ⟨d, t, hdt, hd⟩ := encodeFloatChars_head q
      have h' : ('"' :: (a.data.flatMap escChar ++ ['"'])) ++ d1 :: X1 =
          encodeFloatChars q ++ d2 :: X2 := h
      rw [hdt] at h'
      simp only [List.cons_append] at h'
      injection h' with ha _
      rcases hd with h0 | h0
      · rw [h0] at ha
        exact absurd ha (by decide)
      · rw [← ha] at h0
        exact absurd h0 (by decide)
    | vbool b =>
      exfalso
      cases b
      · have h' : ('"' :: (a.data.flatMap escChar ++ ['"'])) ++ d1 :: X1 =
            ('f' :: ['a', 'l', 's', 'e']) ++ d2 :: X2 := h
        simp only [List.cons_append] at h'
        injection h' with ha _
        exact absurd ha (by decide)
      · have h' : ('"' :: (a.data.flatMap escChar ++ ['"'])) ++ d1 :: X1 =
            ('t' :: ['r', 'u', 'e']) ++ d2 :: X2 := h
        simp only [List.cons_append] at h'
        injection h' with ha _
        exact absurd ha (by decide)
  | vfloat q1 =>
    cases v2 with
    | vint n => cases hn2
    | vstr b =>
      exfalso
      obtain ⟨d, t, hdt, hd⟩ := encodeFloatChars_head q1
      have h' : encodeFloatChars q1 ++ d1 :: X1 =
          ('"' :: (b.data.flatMap escChar ++ ['"'])) ++ d2 :: X2 := h
      rw [hdt] at h'
      simp only [List.cons_append] at h'
      injection h' with ha _
      rcases hd with h0 | h0
      · rw [h0] at ha
        exact absurd ha (by decide)
      · rw [ha] at h0
        exact absurd h0 (by decide)
    | vfloat q2 =>
      have h' : encodeFloatChars q1 ++ d1 :: X1 = encodeFloatChars q2 ++ d2 :: X2 := h
      obtain ⟨hA, hd, hX⟩ := append_delims_det (encodeFloatChars q1) (encodeFloatChars q2)
        d1 d2 X1 X2 (fun c hc => encodeFloatChars_not_delim q1 c hc)
        (fun c hc => encodeFloatChars_not_delim q2 c hc) hd1 hd2 h'
      exact ⟨by rw [encodeFloatChars_inj q1 q2 hA], hd, hX⟩
    | vbool b =>
      exfalso
      obtain ⟨d, t, hdt, hd⟩ := encodeFloatChars_head q1
      cases b
      · have h' : encodeFloatChars q1 ++ d1 :: X1 = ('f' :: ['a', 'l', 's', 'e']) ++ d2 :: X2 := h
        rw [hdt] at h'
        simp only [List.cons_append] at h'
        injection h' with ha _
        rcases hd with h0 | h0
        · rw [h0] at ha
          exact absurd ha (by decide)
        · rw [ha] at h0
          exact absurd h0 (by decide)
      · have h' : encodeFloatChars q1 ++ d1 :: X1 = ('t' :: ['r', 'u', 'e']) ++ d2 :: X2 := h
        rw [hdt] at h'
        simp only [List.cons_append] at h'
        injection h' with ha _
        rcases hd with h0 | h0
        · rw [h0] at ha
          exact absurd ha (by decide)
        · rw [ha] at h0
          exact absurd h0 (by decide)
  | vbool b1 =>
    cases v2 with
    | vint n => cases hn2
    | vstr a =>
      exfalso
      cases b1
      · have h' : ('f' :: ['a', 'l', 's', 'e']) ++ d1 :: X1 =
            ('"' :: (a.data.flatMap escChar ++ ['"'])) ++ d2 :: X2 := h
        simp only [List.cons_append] at h'
        injection h' with ha _
        exact absurd ha (by decide)
      · have h' : ('t' :: ['r', 'u', 'e']) ++ d1 :: X1 =
            ('"' :: (a.data.flatMap escChar ++ ['"'])) ++ d2 :: X2 := h
        simp only [List.cons_append] at h'
        injection h' with ha _
        exact absurd ha (by decide)
    | vfloat q =>
      exfalso
      obtain ⟨d, t, hdt, hd⟩ := encodeFloatChars_head q
      cases b1
      · have h' : ('f' :: ['a', 'l', 's', 'e']) ++ d1 :: X1 = encodeFloatChars q ++ d2 :: X2 := h
        rw [hdt] at h'
        simp only [List.cons_append] at h'
        injection h' with ha _
        rcases hd with h0 | h0
        · rw [h0] at ha
          exact absurd ha (by decide)
        · rw [← ha] at h0
          exact absurd h0 (by decide)
      · have h' : ('t' :: ['r', 'u', 'e']) ++ d1 :: X1 = encodeFloatChars q ++ d2 :: X2 := h
        rw [hdt] at h'
        simp only [List.cons_append] at h'
        injection h' with ha _
        rcases hd with h0 | h0
        · rw [h0] at ha
          exact absurd ha (by decide)
        · rw [← ha] at h0
          exact absurd h0 (by decide)
    | vbool b2 =>
      cases b1 <;> cases b2
      · have h' : ('f' :: 'a' :: 'l' :: 's' :: 'e' :: []) ++ d1 :: X1 =
            ('f' :: 'a' :: 'l' :: 's' :: 'e' :: []) ++ d2 :: X2 := h
        simp only [List.cons_append, List.nil_append] at h'
        injection h' with _ h'
        injection h' with _ h'
        injection h' with _ h'
        injection h' with _ h'
        injection h' with _ h'
        injection h' with hd hX
        exact ⟨rfl, hd, hX⟩
      · exfalso
        have h' : ('f' :: ['a', 'l', 's', 'e']) ++ d1 :: X1 =
            ('t' :: ['r', 'u', 'e']) ++ d2 :: X2 := h
        simp only [List.cons_append] at h'
        injection h' with ha _
        exact absurd ha (by decide)
      · exfalso
        have h' : ('t' :: ['r', 'u', 'e']) ++ d1 :: X1 =
            ('f' :: ['a', 'l', 's', 'e']) ++ d2 :: X2 := h
        simp only [List.cons_append] at h'
        injection h' with ha _
        exact absurd ha (by decide)
      · have h' : ('t' :: 'r' :: 'u' :: 'e' :: []) ++ d1 :: X1 =
            ('t' :: 'r' :: 'u' :: 'e' :: []) ++ d2 :: X2 := h
        simp only [List.cons_append, List.nil_append] at h'
        injection h' with _ h'
        injection h' with _ h'
        injection h' with _ h'
        injection h' with _ h'
        injection h' with hd hX
        exact ⟨rfl, hd, hX⟩

theorem joinComma_one (x : List Char) : joinComma [x] = x := rfl

theorem joinComma_two (x y : List Char) (ys : List (List Char)) :
    joinComma (x :: y :: ys) = x ++ ',' :: joinComma (y :: ys) := rfl

theorem entryChars_head (p : String × Val) :
    entryChars p = '"' :: ((p.1.data.flatMap escChar ++ ['"']) ++ ':' :: encodeVal p.2) := rfl

/-- Two `"key":value` members (values not Go `int`s), each followed by an
object delimiter, agree only when the members, delimiters and remainders
agree. -/
theorem entryChars_det (p1 p2 : String × Val) (d1 d2 : Char) (X1 X2 : List Char)
    (hn1 : noIntVal p1.2 = true) (hn2 : noIntVal p2.2 = true)
    (hd1 : d1 = ',' ∨ d1 = '\x7d') (hd2 : d2 = ',' ∨ d2 = '\x7d')
    (h : entryChars p1 ++ d1 :: X1 = entryChars p2 ++ d2 :: X2) :
    p1 = p2 ∧ d1 = d2 ∧ X1 = X2 := by
  obtain ⟨k1, v1⟩ := p1
  obtain ⟨k2, v2⟩ := p2
  have h' : (('"' :: (k1.data.flatMap escChar ++ ['"'])) ++ ':' :: encodeVal v1) ++ d1 :: X1 =
      (('"' :: (k2.data.flatMap escChar ++ ['"'])) ++ ':' :: encodeVal v2) ++ d2 :: X2 := h
  simp only [List.cons_append, List.append_assoc, List.singleton_append] at h'
  injection h' with _ h''
  obtain ⟨hk, hR⟩ := escBody_det k1.data k2.data (':' :: (encodeVal v1 ++ d1 :: X1))
    (':' :: (encodeVal v2 ++ d2 :: X2)) h''
  injection hR with _ hR'
  obtain ⟨hv, hd, hX⟩ := encodeVal_det v1 v2 d1 d2 X1 X2 hn1 hn2 hd1 hd2 hR'
  refine ⟨?_, hd, hX⟩
  have hk' : k1 = k2 := by
    cases k1
    cases k2
    simp only at hk
    rw [hk]
  rw [hk', hv]

/-- The comma-joined member list (with the closing brace) determines the
sorted entry list, provided no value is a Go `int`. -/
theorem joinComma_entries_det : ∀ (l1 l2 : List (String × Val)),
    (∀ p ∈ l1, noIntVal p.2 = true) → (∀ p ∈ l2, noIntVal p.2 = true) →
    joinComma (l1.map entryChars) ++ ['\x7d'] = joinComma (l2.map entryChars) ++ ['\x7d'] →
    l1 = l2 := by
  intro l1
  induction l1 with
  | nil =>
    intro l2 _ h2 h
    cases l2 with
    | nil => rfl
    | cons p t =>
      exfalso
      cases t with
      | nil =>
        have h' : ('\x7d' :: ([] : List Char)) = entryChars p ++ '\x7d' :: [] := h
        rw [entryChars_head p] at h'
        simp only [List.cons_append] at h'
        injection h' with ha _
        exact absurd ha (by decide)
      | cons q u =>
        have h' : ('\x7d' :: ([] : List Char)) =
            (entryChars p ++ ',' :: joinComma ((q :: u).map entryChars)) ++ ['\x7d'] := h
        rw [entryChars_head p] at h'
        simp only [List.cons_append] at h'
        injection h' with ha _
        exact absurd ha (by decide)
  | cons p1 t1 ih =>
    intro l2 h1 h2 h
    have hm1 : noIntVal p1.2 = true := h1 p1 (List.mem_cons_self _ _)
    have h1' : ∀ p ∈ t1, noIntVal p.2 = true := fun p hp => h1 p (List.mem_cons_of_mem _ hp)
    cases l2 with
    | nil =>
      exfalso
      cases t1 with
      | nil =>
        have h' : entryChars p1 ++ '\x7d' :: [] = ('\x7d' :: ([] : List Char)) := h
        rw [entryChars_head p1] at h'
        simp only [List.cons_append] at h'
        injection h' with ha _
        exact absurd ha (by decide)
      | cons q u =>
        have h' : (entryChars p1 ++ ',' :: joinComma ((q :: u).map entryChars)) ++ ['\x7d'] =
            ('\x7d' :: ([] : List Char)) := h
        rw [entryChars_head p1] at h'
        simp only [List.cons_append] at h'
        injection h' with ha _
        exact absurd ha (by decide)
    | cons p2 t2 =>
      have hm2 : noIntVal p2.2 = true := h2 p2 (List.mem_cons_self _ _)
      have h2' : ∀ p ∈ t2, noIntVal p.2 = true := fun p hp => h2 p (List.mem_cons_of_mem _ hp)
      cases t1 with
      | nil =>
        cases t2 with
        | nil =>
          have h' : entryChars p1 ++ '\x7d' :: [] = entryChars p2 ++ '\x7d' :: [] := h
          obtain ⟨hp, -, -⟩ := entryChars_det p1 p2 '\x7d' '\x7d' [] [] hm1 hm2
            (Or.inr rfl) (Or.inr rfl) h'
          rw [hp]
        | cons q2 u2 =>
          exfalso
          have h' : entryChars p1 ++ '\x7d' :: [] =
              (entryChars p2 ++ ',' :: joinComma ((q2 :: u2).map entryChars)) ++ ['\x7d'] := h
          rw [List.append_assoc] at h'
          simp only [List.cons_append] at h'
          obtain ⟨-, hd, -⟩ := entryChars_det p1 p2 '\x7d' ',' []
            (joinComma ((q2 :: u2).map entryChars) ++ ['\x7d']) hm1 hm2
            (Or.inr rfl) (Or.inl rfl) h'
          exact absurd hd (by decide)
      | cons q1 u1 =>
        cases t2 with
        | nil =>
          exfalso
          have h' : (entryChars p1 ++ ',' :: joinComma ((q1 :: u1).map entryChars)) ++ ['\x7d'] =
              entryChars p2 ++ '\x7d' :: [] := h
          rw [List.append_assoc] at h'
          simp only [List.cons_append] at h'
          obtain ⟨-, hd, -⟩ := entryChars_det p1 p2 ',' '\x7d'
            (joinComma ((q1 :: u1).map entryChars) ++ ['\x7d']) [] hm1 hm2
            (Or.inl rfl) (Or.inr rfl) h'
          exact absurd hd (by decide)
        | cons q2 u2 =>
          have h' : (entryChars p1 ++ ',' :: joinComma ((q1 :: u1).map entryChars)) ++ ['\x7d'] =
              (entryChars p2 ++ ',' :: joinComma ((q2 :: u2).map entryChars)) ++ ['\x7d'] := h
          rw [List.append_assoc, List.append_assoc] at h'
          simp only [List.cons_append] at h'
          obtain ⟨hp, -, hX⟩ := entryChars_det p1 p2 ',' ','
            (joinComma ((q1 :: u1).map entryChars) ++ ['\x7d'])
            (joinComma ((q2 :: u2).map entryChars) ++ ['\x7d']) hm1 hm2
            (Or.inl rfl) (Or.inl rfl) h'
          have ht := ih (q2 :: u2) h1' h2' hX
          rw [hp, ht]

/-- The facet JSON encoding determines the facet as a map, provided no value
is a Go `int`. -/
theorem encodeFacetChars_inj_noInt (f1 f2 : List (String × Val))
    (hn1 : ∀ p ∈ f1, noIntVal p.2 = true) (hn2 : ∀ p ∈ f2, noIntVal p.2 = true)
    (h : encodeFacetChars f1 = encodeFacetChars f2) (k : String) :
    lookupAL f1 k = lookupAL f2 k := by
  unfold encodeFacetChars at h
  injection h with _ h'
  have hcan : canonFacet (dedupKeysAL f1) = canonFacet (dedupKeysAL f2) := by
    refine joinComma_entries_det _ _ ?_ ?_ h'
    · intro p hp
      exact hn1 p (dedup_subset f1 p ((canonFacet_perm (dedupKeysAL f1)).subset hp))
    · intro p hp
      exact hn2 p (dedup_subset f2 p ((canonFacet_perm (dedupKeysAL f2)).subset hp))
  have hcnd1 : ((canonFacet (dedupKeysAL f1)).map Prod.fst).Nodup :=
    (((canonFacet_perm (dedupKeysAL f1)).map Prod.fst).nodup_iff).mpr (dedup_nodup f1)
  have hcnd2 : ((canonFacet (dedupKeysAL f2)).map Prod.fst).Nodup :=
    (((canonFacet_perm (dedupKeysAL f2)).map Prod.fst).nodup_iff).mpr (dedup_nodup f2)
  have e1 : lookupAL (canonFacet (dedupKeysAL f1)) k = lookupAL f1 k := by
    rw [lookupAL_perm _ _ (canonFacet_perm (dedupKeysAL f1)) hcnd1 k, lookupAL_dedup]
  have e2 : lookupAL (canonFacet (dedupKeysAL f2)) k = lookupAL f2 k := by
    rw [lookupAL_perm _ _ (canonFacet_perm (dedupKeysAL f2)) hcnd2 k, lookupAL_dedup]
  rw [← e1, ← e2, hcan]

theorem buildFacet_foldl_lookup (k : String) : ∀ (ps acc : List (String × Val)),
    lookupAL (ps.foldl (fun a p => insertAL a p.1 p.2) acc) k =
      match lookupAL ps.reverse k with
      | some v => some v
      | none => lookupAL acc k := by
  intro ps
  induction ps with
  | nil =>
    intro acc
    rfl
  | cons p t ih =>
    intro acc
    obtain ⟨k0, v0⟩ := p
    rw [List.foldl_cons]
    rw [ih (insertAL acc k0 v0)]
    rw [List.reverse_cons, lookupAL_append]
    rcases h0 : lookupAL t.reverse k with _ | v
    · show lookupAL (insertAL acc k0 v0) k =
        match lookupAL [(k0, v0)] k with
        | some v => some v
        | none => lookupAL acc k
      rw [insertAL_lookup]
      have e : lookupAL [(k0, v0)] k = if k0 = k then some v0 else none := rfl
      rw [e]
      by_cases hk : k = k0
      · rw [if_pos hk, if_pos hk.symm]
      · rw [if_neg hk, if_neg (fun h1 => hk h1.symm)]
    · rfl

theorem buildFacet_lookup (ps : List (String × Val)) (k : String) :
    lookupAL (buildFacet ps) k = lookupAL ps.reverse k := by
  have h := buildFacet_foldl_lookup k ps []
  unfold buildFacet
  rw [h]
  rcases lookupAL ps.reverse k with _ | v
  · rfl
  · rfl

theorem resultKeyOf_encode_eq (q : Query) (suffix : String) (f1 f2 : List (String × Val))
    (h : resultKeyOf q f1 suffix = resultKeyOf q f2 suffix) :
    encodeFacetChars f1 = encodeFacetChars f2 := by
  unfold resultKeyOf at h
  have hD : ∀ (a : String) (l : List Char), (a ++ String.mk l).data = a.data ++ l := by
    intro a l
    cases a
    rfl
  have hd := congrArg String.data h
  rw [hD, hD] at hd
  exact (List.append_inj hd rfl).2

/-- C8: the series key is a deterministic function of the facet map.
Inserting the same duplicate-free set of (name, value) pairs in any order
builds a map with the same series key for the same query name and suffix;
facets equal as maps yield equal keys; and, for facets holding no Go `int`
values, equal keys conversely imply equal facet maps.  (The unrestricted
converse of the original claim is refuted separately: a Go `int` and the
numerically equal float share one JSON rendering.) -/
theorem seriesKey_deterministic (q : Query) (suffix : String)
    (ps ps' f1 f2 : List (String × Val))
    (hperm : ps.Perm ps') (hnd : (ps.map Prod.fst).Nodup) :
    resultKeyOf q (buildFacet ps) suffix = resultKeyOf q (buildFacet ps') suffix ∧
    ((∀ k, lookupAL f1 k = lookupAL f2 k) →
      resultKeyOf q f1 suffix = resultKeyOf q f2 suffix) ∧
    ((∀ p ∈ f1, noIntVal p.2 = true) → (∀ p ∈ f2, noIntVal p.2 = true) →
      resultKeyOf q f1 suffix = resultKeyOf q f2 suffix →
      ∀ k, lookupAL f1 k = lookupAL f2 k) := by
  refine ⟨?_, ?_, ?_⟩
  · have he : encodeFacetChars (buildFacet ps) = encodeFacetChars (buildFacet ps') := by
      apply encodeFacetChars_ext
      intro k
      rw [buildFacet_lookup, buildFacet_lookup]
      have hndr : (ps.reverse.map Prod.fst).Nodup := by
        rw [List.map_reverse]
        exact (List.nodup_reverse).mpr hnd
      have hpr : ps.reverse.Perm ps'.reverse :=
        (List.reverse_perm ps).trans (hperm.trans (List.reverse_perm ps').symm)
      exact lookupAL_perm _ _ hpr hndr k
    unfold resultKeyOf
    rw [he]
  · intro hext
    have he := encodeFacetChars_ext f1 f2 hext
    unfold resultKeyOf
    rw [he]
  · intro hn1 hn2 hkey k
    exact encodeFacetChars_inj_noInt f1 f2 hn1 hn2 (resultKeyOf_encode_eq q suffix f1 f2 hkey) k

set_option maxRecDepth 10000 in
/-- C8 counterexample to the unrestricted equal-iff-encodings-match reading: the
facets `\x7ba: 1\x7d` (Go `int`) and `\x7ba: 1.0\x7d` (float) are different maps, yet
their canonical encodings — and hence their series keys — coincide, because
Go `json.Marshal` renders both values as `1`. -/
theorem seriesKey_encoding_counterexample :
    resultKeyOf exQuery [("a", Val.vint 1)] "" = resultKeyOf exQuery [("a", Val.vfloat 1)] "" ∧
    ¬lookupAL [("a", Val.vint 1)] "a" = lookupAL [("a", Val.vfloat 1)] "a" := by
  constructor
  · with_unfolding_all decide
  · with_unfolding_all decide

/-- Witness instantiating C8 at concrete inputs. -/
theorem seriesKey_deterministic_witness :
    ([("a", Val.vstr "x"), ("b", Val.vstr "y")] : List (String × Val)).Perm
        [("b", Val.vstr "y"), ("a", Val.vstr "x")] ∧
    (([("a", Val.vstr "x"), ("b", Val.vstr "y")] : List (String × Val)).map Prod.fst).Nodup ∧
    (resultKeyOf exQuery (buildFacet [("a", Val.vstr "x"), ("b", Val.vstr "y")]) "" =
        resultKeyOf exQuery (buildFacet [("b", Val.vstr "y"), ("a", Val.vstr "x")]) "" ∧
      ((∀ k, lookupAL [("a", Val.vstr "x")] k = lookupAL [("a", Val.vstr "x")] k) →
        resultKeyOf exQuery [("a", Val.vstr "x")] "" =
          resultKeyOf exQuery [("a", Val.vstr "x")] "") ∧
      ((∀ p ∈ ([("a", Val.vstr "x")] : List (String × Val)), noIntVal p.2 = true) →
        (∀ p ∈ ([("a", Val.vstr "x")] : List (String × Val)), noIntVal p.2 = true) →
        resultKeyOf exQuery [("a", Val.vstr "x")] "" =
          resultKeyOf exQuery [("a", Val.vstr "x")] "" →
        ∀ k, lookupAL [("a", Val.vstr "x")] k = lookupAL [("a", Val.vstr "x")] k)) :=
  ⟨by decide, by decide,
    seriesKey_deterministic exQuery "" [("a", Val.vstr "x"), ("b", Val.vstr "y")]
      [("b", Val.vstr "y"), ("a", Val.vstr "x")] [("a", Val.vstr "x")] [("a", Val.vstr "x")]
      (by decide) (by decide)⟩

/-! ### Case-sensitive series keys versus lower-cased labels -/

theorem scanRowAux_cons (rowLen : Nat) (df : String) (subvals : List String)
    (k : String) (v : Val) (rest facet : List (String × Val)) (acc : Option Val) :
    scanRowAux rowLen df subvals ((k, v) :: rest) facet acc =
      if 1 < rowLen ∧ ¬strToLower k = df then
        if subvals.contains (strToLower k) then
          scanRowAux rowLen df subvals rest facet acc
        else scanRowAux rowLen df subvals rest (insertAL facet (strToLower k) v) acc
      else
        match acc with
        | some _ => .error "Data field not specified for multi-column query"
        | none => scanRowAux rowLen df subvals rest facet (some v) := by
  cases acc <;> rfl

theorem scanPartial_cons (rowLen : Nat) (df : String) (subvals : List String)
    (k : String) (v : Val) (rest facet : List (String × Val)) (acc : Option Val) :
    scanPartial rowLen df subvals ((k, v) :: rest) facet acc =
      if 1 < rowLen ∧ ¬strToLower k = df then
        if subvals.contains (strToLower k) then
          scanPartial rowLen df subvals rest facet acc
        else scanPartial rowLen df subvals rest (insertAL facet (strToLower k) v) acc
      else
        match acc with
        | some _ => .error "Data field not specified for multi-column query"
        | none => scanPartial rowLen df subvals rest facet (some v) := by
  cases acc <;> rfl

/-- The row scan splits at any column boundary into the partial loop on the
prefix followed by the scan of the remainder. -/
theorem scanRowAux_append (rowLen : Nat) (df : String) (subvals : List String) :
    ∀ (xs ys facet : List (String × Val)) (acc : Option Val),
    scanRowAux rowLen df subvals (xs ++ ys) facet acc =
      match scanPartial rowLen df subvals xs facet acc with
      | .error e => .error e
      | .ok fa => scanRowAux rowLen df subvals ys fa.1 fa.2 := by
  intro xs
  induction xs with
  | nil =>
    intro ys facet acc
    rfl
  | cons p t ih =>
    intro ys facet acc
    obtain ⟨k, v⟩ := p
    rw [List.cons_append, scanRowAux_cons, scanPartial_cons]
    by_cases h1 : 1 < rowLen ∧ ¬strToLower k = df
    · rw [if_pos h1, if_pos h1]
      by_cases h2 : subvals.contains (strToLower k) = true
      · rw [if_pos h2, if_pos h2]
        exact ih ys facet acc
      · rw [if_neg h2, if_neg h2]
        exact ih ys _ acc
    · rw [if_neg h1, if_neg h1]
      cases acc with
      | none => exact ih ys facet (some v)
      | some v0 => rfl

/-- Scanning the same columns from two facet maps that differ exactly at a
key no column writes again preserves the difference and yields the same
datum. -/
theorem scanRowAux_parallel (rowLen : Nat) (df : String) (subvals : List String)
    (lc s1 s2 : String) :
    ∀ (cols f1 f2 : List (String × Val)) (acc : Option Val),
    facetRel lc s1 s2 f1 f2 →
    (∀ p ∈ cols, ¬strToLower p.1 = lc) →
    ∀ g1 v1 g2 v2,
      scanRowAux rowLen df subvals cols f1 acc = .ok (g1, v1) →
      scanRowAux rowLen df subvals cols f2 acc = .ok (g2, v2) →
      v1 = v2 ∧ facetRel lc s1 s2 g1 g2 := by
  intro cols
  induction cols with
  | nil =>
    intro f1 f2 acc hrel _ g1 v1 g2 v2 h1 h2
    cases acc with
    | none => cases h1
    | some v =>
      cases h1
      cases h2
      exact ⟨rfl, hrel⟩
  | cons p t ih =>
    intro f1 f2 acc hrel hcols g1 v1 g2 v2 h1 h2
    obtain ⟨k, v⟩ := p
    rw [scanRowAux_cons] at h1 h2
    have hklc : ¬strToLower k = lc := hcols (k, v) (List.mem_cons_self _ _)
    have hcols' : ∀ p ∈ t, ¬strToLower p.1 = lc := fun p hp => hcols p (List.mem_cons_of_mem _ hp)
    by_cases hc : 1 < rowLen ∧ ¬strToLower k = df
    · rw [if_pos hc] at h1 h2
      by_cases hs : subvals.contains (strToLower k) = true
      · rw [if_pos hs] at h1 h2
        exact ih f1 f2 acc hrel hcols' g1 v1 g2 v2 h1 h2
      · rw [if_neg hs] at h1 h2
        refine ih _ _ acc ?_ hcols' g1 v1 g2 v2 h1 h2
        obtain ⟨ha, hb, hcc⟩ := hrel
        refine ⟨?_, ?_, ?_⟩
        · rw [insertAL_lookup, if_neg (fun h0 => hklc h0.symm)]
          exact ha
        · rw [insertAL_lookup, if_neg (fun h0 => hklc h0.symm)]
          exact hb
        · intro k0 hk0
          rw [insertAL_lookup, insertAL_lookup]
          by_cases hk1 : k0 = strToLower k
          · rw [if_pos hk1, if_pos hk1]
          · rw [if_neg hk1, if_neg hk1]
            exact hcc k0 hk0
    · rw [if_neg hc] at h1 h2
      cases acc with
      | some v0 => cases h1
      | none => exact ih f1 f2 (some v) hrel hcols' g1 v1 g2 v2 h1 h2

/-- Every value of a scanned facet comes from the initial facet or from a
column of the row, so a row without Go `int` values yields an int-free
facet. -/
theorem scanRowAux_noInt (rowLen : Nat) (df : String) (subvals : List String) :
    ∀ (cols facet : List (String × Val)) (acc : Option Val) (g : List (String × Val)) (v : Val),
    (∀ p ∈ facet, noIntVal p.2 = true) → (∀ p ∈ cols, noIntVal p.2 = true) →
    scanRowAux rowLen df subvals cols facet acc = .ok (g, v) →
    ∀ p ∈ g, noIntVal p.2 = true := by
  intro cols
  induction cols with
  | nil =>
    intro facet acc g v hf _ h
    cases acc with
    | none => cases h
    | some v0 =>
      cases h
      exact hf
  | cons p0 t ih =>
    intro facet acc g v hf hc h
    obtain ⟨k, v0⟩ := p0
    rw [scanRowAux_cons] at h
    have hv0 : noIntVal v0 = true := hc (k, v0) (List.mem_cons_self _ _)
    have hc' : ∀ p ∈ t, noIntVal p.2 = true := fun p hp => hc p (List.mem_cons_of_mem _ hp)
    by_cases h1 : 1 < rowLen ∧ ¬strToLower k = df
    · rw [if_pos h1] at h
      by_cases h2 : subvals.contains (strToLower k) = true
      · rw [if_pos h2] at h
        exact ih facet acc g v hf hc' h
      · rw [if_neg h2] at h
        refine ih _ acc g v ?_ hc' h
        intro p hp
        rcases insertAL_mem facet (strToLower k) v0 p hp with hm | hm
        · exact hf p hm
        · rw [hm]
          exact hv0
    · rw [if_neg h1] at h
      cases acc with
      | some _ => cases h
      | none => exact ih facet (some v0) g v hf hc' h

/-- The label map attached to a fresh gauge reads back, at each key, the
lower-cased rendering of the facet value at that key. -/
theorem labelsOf_lookup (f : List (String × Val)) (k : String) :
    lookupAL (labelsOf f) k = (lookupAL f k).map (fun v => strToLower (renderVal v)) := by
  have h : lookupAL (labelsOf f) k =
      (lookupAL (canonFacet (dedupKeysAL f)) k).map (fun v => strToLower (renderVal v)) :=
    lookupAL_map_value (canonFacet (dedupKeysAL f)) (fun _ v => strToLower (renderVal v)) k
  rw [h]
  have hcnd : ((canonFacet (dedupKeysAL f)).map Prod.fst).Nodup :=
    (((canonFacet_perm (dedupKeysAL f)).map Prod.fst).nodup_iff).mpr (dedup_nodup f)
  rw [lookupAL_perm _ _ (canonFacet_perm (dedupKeysAL f)) hcnd k, lookupAL_dedup]

/-- Running an action whose key is absent creates the gauge of the action
with the action's value. -/
theorem runAct_fresh_gauge (st : RegState) (a : Act) (h : lookupAL st.result a.key = none) :
    lookupAL (runAct st a).1.result a.key = some { a.gauge with value := a.value } := by
  unfold runAct
  have hb : (lookupAL st.result a.key).isSome = false := by
    rw [h]
    rfl
  rw [hb]
  simp only [Bool.false_eq_true, if_false]
  rw [setGauge_fresh_append st.result st.published a.key a.gauge a.value h]
  exact lookupAL_append_fresh st.result a.key _ h

theorem subsCompute_single_inv (q : Query) (sv : List String) (row : Record)
    (suffix df0 : String) (b : List Act)
    (h : subsCompute q sv row [(suffix, df0)] = .ok b) :
    ∃ a, pairCompute q row suffix df0 sv = .ok a ∧ b = [a] := by
  rcases hp : pairCompute q row suffix df0 sv with e | a
  · have h0 : subsCompute q sv row [(suffix, df0)] = .error e := by
      show (match pairCompute q row suffix df0 sv with
        | .error e0 => (.error e0 : Except String (List Act))
        | .ok a0 => (subsCompute q sv row []).map (fun l => a0 :: l)) = .error e
      rw [hp]
    rw [h0] at h
    cases h
  · refine ⟨a, rfl, ?_⟩
    have h2 : subsCompute q sv row [(suffix, df0)] = .ok [a] := by
      show (match pairCompute q row suffix df0 sv with
        | .error e0 => (.error e0 : Except String (List Act))
        | .ok a0 => (subsCompute q sv row []).map (fun l => a0 :: l)) = .ok [a]
      rw [hp]
      rfl
    rw [h2] at h
    injection h with h3
    exact h3.symm

theorem rowsCompute_two_inv (q : Query) (subm : List (String × String)) (sv : List String)
    (r1 r2 : Record) (as1 : List Act)
    (h : rowsCompute q subm sv [r1, r2] = .ok as1) :
    ∃ b1 b2, subsCompute q sv r1 subm = .ok b1 ∧ subsCompute q sv r2 subm = .ok b2 ∧
      as1 = b1 ++ (b2 ++ []) := by
  rcases hs1 : subsCompute q sv r1 subm with e | b1
  · have h0 : rowsCompute q subm sv [r1, r2] = .error e := by
      show (match subsCompute q sv r1 subm with
        | .error e0 => (.error e0 : Except String (List Act))
        | .ok b => (rowsCompute q subm sv [r2]).map (fun l => b ++ l)) = .error e
      rw [hs1]
    rw [h0] at h
    cases h
  · rcases hs2 : subsCompute q sv r2 subm with e | b2
    · have h2 : rowsCompute q subm sv [r2] = .error e := by
        show (match subsCompute q sv r2 subm with
          | .error e0 => (.error e0 : Except String (List Act))
          | .ok b => (rowsCompute q subm sv []).map (fun l => b ++ l)) = .error e
        rw [hs2]
      have h3 : rowsCompute q subm sv [r1, r2] = .error e := by
        show (match subsCompute q sv r1 subm with
          | .error e0 => (.error e0 : Except String (List Act))
          | .ok b => (rowsCompute q subm sv [r2]).map (fun l => b ++ l)) = .error e
        rw [hs1, h2]
        rfl
      rw [h3] at h
      cases h
    · refine ⟨b1, b2, rfl, rfl, ?_⟩
      have h5 : rowsCompute q subm sv [r2] = .ok (b2 ++ []) := by
        show (match subsCompute q sv r2 subm with
          | .error e0 => (.error e0 : Except String (List Act))
          | .ok b => (rowsCompute q subm sv []).map (fun l => b ++ l)) = .ok (b2 ++ [])
        rw [hs2]
        rfl
      have h4 : rowsCompute q subm sv [r1, r2] = .ok (b1 ++ (b2 ++ [])) := by
        show (match subsCompute q sv r1 subm with
          | .error e0 => (.error e0 : Except String (List Act))
          | .ok b => (rowsCompute q subm sv [r2]).map (fun l => b ++ l)) = .ok (b1 ++ (b2 ++ []))
        rw [hs1, h5]
        rfl
      rw [h4] at h
      injection h with h6
      exact h6.symm

/-- C10: the series key uses the original facet values while the published
labels lower-case them: two rows that differ only in the letter case of one
facet string value produce, in one successful apply round from an empty
registry, two distinct registry entries whose gauge names are identical and
whose constant label maps are identical. -/
theorem setMetrics_case_distinct_series (q : Query) (pub : List String)
    (pre post : List (String × Val)) (c s1 s2 : String) (st' : RegState) (fw : FW)
    (hsub : q.SubMetrics = [])
    (hs12 : ¬s1 = s2)
    (hlow : strToLower s1 = strToLower s2)
    (hlen : 1 < (pre ++ (c, Val.vstr s1) :: post).length)
    (hcdf : ¬strToLower c = q.DataField)
    (hother : ∀ p ∈ pre ++ post, ¬strToLower p.1 = strToLower c)
    (hnoint : ∀ p ∈ pre ++ post, noIntVal p.2 = true)
    (hrun : SetMetrics q { result := [], published := pub }
        [pre ++ (c, Val.vstr s1) :: post, pre ++ (c, Val.vstr s2) :: post] = (st', .ok fw)) :
    ∃ k1 k2 g1 g2, ¬k1 = k2 ∧
      lookupAL st'.result k1 = some g1 ∧ lookupAL st'.result k2 = some g2 ∧
      g1.name = g2.name ∧
      (∀ k, lookupAL g1.constLabels k = lookupAL g2.constLabels k) := by
  obtain ⟨as1, hacts, hst1, -, -, -⟩ := setMetrics_ok_runActs q _ _ st' fw hrun
  have hes : effectiveSubmetrics q = [("", q.DataField)] := by
    unfold effectiveSubmetrics
    rw [hsub]
    rfl
  rw [hes] at hacts
  have hacts' : rowsCompute q [("", q.DataField)] [q.DataField]
      [pre ++ (c, Val.vstr s1) :: post, pre ++ (c, Val.vstr s2) :: post] = .ok as1 := hacts
  obtain ⟨b1, b2, hsub1, hsub2, hasplit⟩ := rowsCompute_two_inv q _ _ _ _ as1 hacts'
  obtain ⟨a1, hp1, hb1⟩ := subsCompute_single_inv q _ _ "" q.DataField b1 hsub1
  obtain ⟨a2, hp2, hb2⟩ := subsCompute_single_inv q _ _ "" q.DataField b2 hsub2
  obtain ⟨fv1, x1, hscan1, hval1, ha1⟩ :=
    pairCompute_ok_inv q _ "" q.DataField [q.DataField] a1 hp1
  obtain ⟨fv2, x2, hscan2, hval2, ha2⟩ :=
    pairCompute_ok_inv q _ "" q.DataField [q.DataField] a2 hp2
  obtain ⟨F1, V1⟩ := fv1
  obtain ⟨F2, V2⟩ := fv2
  -- the two row scans share the prefix loop and differ only at the cased value
  have hsr1 : scanRowAux ((pre ++ (c, Val.vstr s1) :: post).length) q.DataField [q.DataField]
      (pre ++ (c, Val.vstr s1) :: post) [] none = .ok (F1, V1) := hscan1
  have hsr2pre : scanRowAux ((pre ++ (c, Val.vstr s2) :: post).length) q.DataField [q.DataField]
      (pre ++ (c, Val.vstr s2) :: post) [] none = .ok (F2, V2) := hscan2
  have hL2 : (pre ++ (c, Val.vstr s2) :: post).length =
      (pre ++ (c, Val.vstr s1) :: post).length := by
    simp
  rw [hL2] at hsr2pre
  rw [scanRowAux_append] at hsr1 hsr2pre
  rcases hpp : scanPartial ((pre ++ (c, Val.vstr s1) :: post).length) q.DataField [q.DataField]
      pre [] none with e | fa
  · rw [hpp] at hsr1
    have h0 : (Except.error e : Except String (List (String × Val) × Val)) = .ok (F1, V1) := hsr1
    cases h0
  rw [hpp] at hsr1 hsr2pre
  have hstep1 : scanRowAux ((pre ++ (c, Val.vstr s1) :: post).length) q.DataField [q.DataField]
      ((c, Val.vstr s1) :: post) fa.1 fa.2 = .ok (F1, V1) := hsr1
  have hstep2 : scanRowAux ((pre ++ (c, Val.vstr s1) :: post).length) q.DataField [q.DataField]
      ((c, Val.vstr s2) :: post) fa.1 fa.2 = .ok (F2, V2) := hsr2pre
  rw [scanRowAux_cons] at hstep1 hstep2
  have hcond : 1 < (pre ++ (c, Val.vstr s1) :: post).length ∧ ¬strToLower c = q.DataField :=
    ⟨hlen, hcdf⟩
  rw [if_pos hcond] at hstep1 hstep2
  have hcontn : ¬(([q.DataField] : List String).contains (strToLower c) = true) := by
    intro hx
    simp only [List.contains_cons, List.contains_nil, Bool.or_false, beq_iff_eq] at hx
    exact hcdf hx
  rw [if_neg hcontn] at hstep1 hstep2
  have hrel0 : facetRel (strToLower c) s1 s2
      (insertAL fa.1 (strToLower c) (Val.vstr s1)) (insertAL fa.1 (strToLower c) (Val.vstr s2)) := by
    refine ⟨?_, ?_, ?_⟩
    · rw [insertAL_lookup, if_pos rfl]
    · rw [insertAL_lookup, if_pos rfl]
    · intro k hk
      rw [insertAL_lookup, insertAL_lookup, if_neg hk, if_neg hk]
  have hpost : ∀ p ∈ post, ¬strToLower p.1 = strToLower c :=
    fun p hp => hother p (List.mem_append.mpr (Or.inr hp))
  obtain ⟨hveq, hrel⟩ := scanRowAux_parallel ((pre ++ (c, Val.vstr s1) :: post).length)
    q.DataField [q.DataField] (strToLower c) s1 s2 post _ _ fa.2 hrel0 hpost
    F1 V1 F2 V2 hstep1 hstep2
  -- int-free facets
  have hrow1 : ∀ p ∈ pre ++ (c, Val.vstr s1) :: post, noIntVal p.2 = true := by
    intro p hp
    rcases List.mem_append.mp hp with h0 | h0
    · exact hnoint p (List.mem_append.mpr (Or.inl h0))
    · rcases List.mem_cons.mp h0 with h1 | h1
      · rw [h1]
        rfl
      · exact hnoint p (List.mem_append.mpr (Or.inr h1))
  have hrow2 : ∀ p ∈ pre ++ (c, Val.vstr s2) :: post, noIntVal p.2 = true := by
    intro p hp
    rcases List.mem_append.mp hp with h0 | h0
    · exact hnoint p (List.mem_append.mpr (Or.inl h0))
    · rcases List.mem_cons.mp h0 with h1 | h1
      · rw [h1]
        rfl
      · exact hnoint p (List.mem_append.mpr (Or.inr h1))
  have hn1 : ∀ p ∈ F1, noIntVal p.2 = true :=
    scanRowAux_noInt ((pre ++ (c, Val.vstr s1) :: post).length) q.DataField [q.DataField]
      (pre ++ (c, Val.vstr s1) :: post) [] none F1 V1
      (fun p hp => absurd hp (List.not_mem_nil p)) hrow1 hscan1
  have hn2 : ∀ p ∈ F2, noIntVal p.2 = true :=
    scanRowAux_noInt ((pre ++ (c, Val.vstr s2) :: post).length) q.DataField [q.DataField]
      (pre ++ (c, Val.vstr s2) :: post) [] none F2 V2
      (fun p hp => absurd hp (List.not_mem_nil p)) hrow2 hscan2
  -- the two series keys differ
  have hk12 : ¬resultKeyOf q F1 "" = resultKeyOf q F2 "" := by
    intro heq
    have h1 := encodeFacetChars_inj_noInt F1 F2 hn1 hn2
      (resultKeyOf_encode_eq q "" F1 F2 heq) (strToLower c)
    obtain ⟨ha, hb, -⟩ := hrel
    rw [ha, hb] at h1
    injection h1 with h2
    injection h2 with h3
    exact hs12 h3
  -- run the two creation actions from the empty registry
  subst ha1
  subst ha2
  have has : as1 = [(⟨resultKeyOf q F1 "",
      { name := "query_result_" ++ metricNameOf q "", help := "Result of an SQL query",
        constLabels := labelsOf F1, value := 0 }, x1⟩ : Act),
    (⟨resultKeyOf q F2 "",
      { name := "query_result_" ++ metricNameOf q "", help := "Result of an SQL query",
        constLabels := labelsOf F2, value := 0 }, x2⟩ : Act)] := by
    rw [hasplit, hb1, hb2]
    rfl
  rw [has] at hst1
  set a1 : Act := ⟨resultKeyOf q F1 "",
    { name := "query_result_" ++ metricNameOf q "", help := "Result of an SQL query",
      constLabels := labelsOf F1, value := 0 }, x1⟩ with ha1def
  set a2 : Act := ⟨resultKeyOf q F2 "",
    { name := "query_result_" ++ metricNameOf q "", help := "Result of an SQL query",
      constLabels := labelsOf F2, value := 0 }, x2⟩ with ha2def
  have hne21 : ¬a2.key = a1.key := fun h => hk12 h.symm
  have hne12 : ¬a1.key = a2.key := hk12
  have hstep : (runActs { result := [], published := pub : RegState } [] [a1, a2]).1 =
      (runAct (runAct { result := [], published := pub : RegState } a1).1 a2).1 := rfl
  rw [hstep] at hst1
  have hl1 : lookupAL ((runAct { result := [], published := pub : RegState } a1).1).result a1.key =
      some { a1.gauge with value := a1.value } :=
    runAct_fresh_gauge _ a1 rfl
  have hl2pre : lookupAL ((runAct { result := [], published := pub : RegState } a1).1).result
      a2.key = none := by
    rw [runAct_lookup_other _ a1 a2.key hne21]
    rfl
  have hl2 : lookupAL ((runAct (runAct { result := [], published := pub : RegState } a1).1
      a2).1).result a2.key = some { a2.gauge with value := a2.value } :=
    runAct_fresh_gauge _ a2 hl2pre
  have hl1fin : lookupAL ((runAct (runAct { result := [], published := pub : RegState } a1).1
      a2).1).result a1.key = some { a1.gauge with value := a1.value } := by
    rw [runAct_lookup_other _ a2 a1.key hne12]
    exact hl1
  refine ⟨a1.key, a2.key, { a1.gauge with value := a1.value },
    { a2.gauge with value := a2.value }, hne12, ?_, ?_, ?_, ?_⟩
  · rw [hst1]
    exact hl1fin
  · rw [hst1]
    exact hl2
  · rfl
  · intro k
    show lookupAL (labelsOf F1) k = lookupAL (labelsOf F2) k
    rw [labelsOf_lookup, labelsOf_lookup]
    obtain ⟨ha, hb, hcc⟩ := hrel
    by_cases hk : k = strToLower c
    · subst hk
      rw [ha, hb]
      show some (strToLower (renderVal (Val.vstr s1))) = some (strToLower (renderVal (Val.vstr s2)))
      show some (strToLower s1) = some (strToLower s2)
      rw [hlow]
    · rw [hcc k hk]

/-- Witness instantiating C10 on the `exRecsCase` round. -/
theorem setMetrics_case_distinct_series_witness :
    (exQuery.SubMetrics = [] ∧ ¬("A" : String) = "a" ∧ strToLower "A" = strToLower "a" ∧
      1 < (([] : List (String × Val)) ++
        ("region", Val.vstr "A") :: [("count", Val.vfloat 2)]).length ∧
      ¬strToLower "region" = exQuery.DataField ∧
      (∀ p ∈ ([] : List (String × Val)) ++ [("count", Val.vfloat 2)],
        ¬strToLower p.1 = strToLower "region") ∧
      (∀ p ∈ ([] : List (String × Val)) ++ [("count", Val.vfloat 2)], noIntVal p.2 = true) ∧
      SetMetrics exQuery { result := [], published := [] }
        [([] : List (String × Val)) ++ ("region", Val.vstr "A") :: [("count", Val.vfloat 2)],
         ([] : List (String × Val)) ++ ("region", Val.vstr "a") :: [("count", Val.vfloat 2)]] =
        (exCaseSt, .ok exCaseFw)) ∧
    (∃ k1 k2 g1 g2, ¬k1 = k2 ∧
      lookupAL exCaseSt.result k1 = some g1 ∧ lookupAL exCaseSt.result k2 = some g2 ∧
      g1.name = g2.name ∧
      (∀ k, lookupAL g1.constLabels k = lookupAL g2.constLabels k)) :=
  ⟨⟨rfl, by decide, by decide, by decide, by decide, by decide, by decide, rfl⟩,
    setMetrics_case_distinct_series exQuery [] [] [("count", Val.vfloat 2)] "region" "A" "a"
      exCaseSt exCaseFw rfl (by decide) (by decide) (by decide) (by decide) (by decide)
      (by decide) rfl⟩

end PromSql
